import Mathlib

/-!
Verification of the Connect-Four engine (TypeScript source, class `Game` and
class `Player`).  The board is the 6 × 7 grid of the source (`NUM_ROWS = 6`,
`NUM_COLS = 7`), row 0 at the top, row 5 at the bottom.  JavaScript `null`
cells are modelled by `Option.none`; an out-of-range array access, which in
JavaScript yields `undefined`, is modelled by the outer `Option` of `jsCell`.
Column arguments of the core entry points are `Int`, as the source takes any
JavaScript number (the human path can produce negative columns).
-/

/-- The two piece tags of the source `enum Piece`. -/
inductive Piece where
  | Red : Piece
  | Yellow : Piece
deriving DecidableEq, Repr

/-- A board cell: `none` is the JavaScript `null`, `some p` a placed piece. -/
abbrev Cell := Option Piece

/-- A board is a total assignment of cells to (row, col) coordinates; the
game only ever reads rows 0..5 and columns 0..6. -/
abbrev Board := Nat → Nat → Cell

/-- The initial board of the source constructor: all cells `null`. -/
def emptyBoard : Board := fun _ _ => none

/-- The non-null values of the source type `Result`
(`P1 Wins! | P2 Wins! | Draw`). -/
inductive GameOutcome where
  | P1Wins : GameOutcome
  | P2Wins : GameOutcome
  | Draw : GameOutcome
deriving DecidableEq, Repr

/-- Reading `board[r][col]` as JavaScript does: `none` models the
`undefined` produced by an out-of-range index, `some c` the stored cell. -/
def jsCell (b : Board) (r : Nat) (col : Int) : Option Cell :=
  if r < 6 ∧ 0 ≤ col ∧ col < 7 then some (b r col.toNat) else none

/-- JavaScript truthiness of a read cell: only an actual piece (a non-empty
string in the source) is truthy; `null` and `undefined` are falsy. -/
def jsTruthy : Option Cell → Bool
  | some (some _) => true
  | _ => false

/-- The strict test `board[row][col] === null` of the source: true only when
the read produced an actual `null` cell (`undefined === null` is false). -/
def jsIsNull : Option Cell → Bool
  | some none => true
  | _ => false

/-- Loop-body condition of `Game.getLowestEmptyRowForColumn` at a given row:
`(isBottomRow || board[row + 1][col]) && board[row][col] === null`. -/
def glrPred (b : Board) (col : Int) (row : Nat) : Bool :=
  (row == 5 || jsTruthy (jsCell b (row + 1) col)) && jsIsNull (jsCell b row col)

/-- `Game.getLowestEmptyRowForColumn`: scan rows 0..5 top to bottom and
return the first row whose cell is `null` while being the bottom row or
having a truthy cell right below; `none` models the `null` return. -/
def getLowestEmptyRowForColumn (b : Board) (col : Int) : Option Nat :=
  (List.range 6).find? (glrPred b col)

/-- `Game.canPlayAtColumn`: `getLowestEmptyRowForColumn(board, col) !== null`. -/
def canPlayAtColumn (b : Board) (col : Int) : Bool :=
  (getLowestEmptyRowForColumn b col).isSome

/-- `Game.placePiece`: write the piece at the lowest empty row of the column
if one exists, otherwise leave the board unchanged. -/
def placePiece (b : Board) (col : Int) (p : Piece) : Board :=
  match getLowestEmptyRowForColumn b col with
  | none => b
  | some row => fun r c => if r = row ∧ c = col.toNat then some p else b r c

/-- One entry of the child list of `Game.getChildBoardsForBoard`. -/
structure ChildBoard where
  col : Int
  board : Board

/-- `Game.getChildBoardsForBoard`: for each column 0..6 in order, if the
column is playable, a copy of the board with the piece placed there; the
unplayable columns are dropped (`_.compact`). -/
def getChildBoardsForBoard (b : Board) (p : Piece) : List ChildBoard :=
  (List.range 7).filterMap (fun (c : Nat) =>
    if canPlayAtColumn b (c : Int) then some ⟨(c : Int), placePiece b (c : Int) p⟩ else none)

/-- `Game.countCellsInArray`: `_.sumBy(array, cell => cell === targetCell ? 1 : 0)`. -/
def countCellsInArray (l : List Cell) (t : Cell) : Nat :=
  (l.map (fun c => if c = t then 1 else 0)).sum

/-- Window of `Game.numMatchingCellsHorizontally`: cells
`(startingRow, startingCol + k)` while `startingCol + k < 7` and `k < 4`. -/
def windowHorizontal (b : Board) (r c : Nat) : List Cell :=
  (List.range (min (7 - c) 4)).map (fun k => b r (c + k))

/-- Window of `Game.numMatchingCellsDiagonallyUp`: cells
`(startingRow - k, startingCol + k)` while the row stays nonnegative,
`k < 4` and the column stays below 7. -/
def windowDiagUp (b : Board) (r c : Nat) : List Cell :=
  (List.range (min (min (r + 1) (7 - c)) 4)).map (fun k => b (r - k) (c + k))

/-- Window of `Game.numMatchingCellsDiagonallyDown`: cells
`(startingRow + k, startingCol + k)` while the row stays below 6, `k < 4`
and the column stays below 7. -/
def windowDiagDown (b : Board) (r c : Nat) : List Cell :=
  (List.range (min (min (6 - r) (7 - c)) 4)).map (fun k => b (r + k) (c + k))

/-- Window of `Game.numMatchingCellsVertically`: cells
`(startingRow + k, startingCol)` while the row stays below 6 and `k < 4`. -/
def windowVertical (b : Board) (r c : Nat) : List Cell :=
  (List.range (min (6 - r) 4)).map (fun k => b (r + k) c)

/-- `Game.numMatchingCellsHorizontally`. -/
def numMatchingCellsHorizontally (b : Board) (t : Cell) (r c : Nat) : Nat :=
  countCellsInArray (windowHorizontal b r c) t

/-- `Game.numMatchingCellsDiagonallyUp`. -/
def numMatchingCellsDiagonallyUp (b : Board) (t : Cell) (r c : Nat) : Nat :=
  countCellsInArray (windowDiagUp b r c) t

/-- `Game.numMatchingCellsDiagonallyDown`. -/
def numMatchingCellsDiagonallyDown (b : Board) (t : Cell) (r c : Nat) : Nat :=
  countCellsInArray (windowDiagDown b r c) t

/-- `Game.numMatchingCellsVertically`. -/
def numMatchingCellsVertically (b : Board) (t : Cell) (r c : Nat) : Nat :=
  countCellsInArray (windowVertical b r c) t

/-- `Game.evaluateMetrics`: the `score += ...` chain for the maximizing
counts minus the `score -= ...` chain for the minimizing counts. -/
def evaluateMetrics (nMax nMin nEmpty : Nat) : Int :=
  (if nMax = 4 then 1000000
   else if nMax = 3 ∧ nEmpty = 1 then 5
   else if nMax = 2 ∧ nEmpty = 2 then 2
   else 0)
  -
  (if nMin = 4 then 1000000
   else if nMin = 3 ∧ nEmpty = 1 then 5
   else if nMin = 2 ∧ nEmpty = 2 then 2
   else 0)

/-- `Game.evaluateHorizontally`. -/
def evaluateHorizontally (b : Board) (pMax pMin : Piece) (r c : Nat) : Int :=
  evaluateMetrics (numMatchingCellsHorizontally b (some pMax) r c)
    (numMatchingCellsHorizontally b (some pMin) r c)
    (numMatchingCellsHorizontally b none r c)

/-- `Game.evaluateDiagonallyUp`. -/
def evaluateDiagonallyUp (b : Board) (pMax pMin : Piece) (r c : Nat) : Int :=
  evaluateMetrics (numMatchingCellsDiagonallyUp b (some pMax) r c)
    (numMatchingCellsDiagonallyUp b (some pMin) r c)
    (numMatchingCellsDiagonallyUp b none r c)

/-- `Game.evaluateDiagonallyDown`. -/
def evaluateDiagonallyDown (b : Board) (pMax pMin : Piece) (r c : Nat) : Int :=
  evaluateMetrics (numMatchingCellsDiagonallyDown b (some pMax) r c)
    (numMatchingCellsDiagonallyDown b (some pMin) r c)
    (numMatchingCellsDiagonallyDown b none r c)

/-- `Game.evaluateVertically`. -/
def evaluateVertically (b : Board) (pMax pMin : Piece) (r c : Nat) : Int :=
  evaluateMetrics (numMatchingCellsVertically b (some pMax) r c)
    (numMatchingCellsVertically b (some pMin) r c)
    (numMatchingCellsVertically b none r c)

/-- The centre column read by `Game.evaluateBoard`:
`board[row][Math.floor(NUM_COLS / 2)]` for rows 0..5, i.e. column 3. -/
def centerColumn (b : Board) : List Cell :=
  (List.range 6).map (fun r => b r 3)

/-- `Game.evaluateBoard`: 3 points per maximizing piece in the centre column
plus the four directional window scores summed over every cell. -/
def evaluateBoard (b : Board) (pMax pMin : Piece) : Int :=
  3 * (countCellsInArray (centerColumn b) (some pMax) : Int)
  + ((List.range 6).map (fun r =>
      ((List.range 7).map (fun c =>
        evaluateHorizontally b pMax pMin r c
        + evaluateDiagonallyUp b pMax pMin r c
        + evaluateDiagonallyDown b pMax pMin r c
        + evaluateVertically b pMax pMin r c)).sum)).sum

/-- `Game.hasPlayerWonAtCell`: some direction window starting at the cell
counts exactly 4 cells of the piece
(`_.includes([h, du, dd, v], 4)`). -/
def hasPlayerWonAtCell (b : Board) (p : Piece) (r c : Nat) : Bool :=
  (numMatchingCellsHorizontally b (some p) r c == 4)
  || (numMatchingCellsDiagonallyUp b (some p) r c == 4)
  || (numMatchingCellsDiagonallyDown b (some p) r c == 4)
  || (numMatchingCellsVertically b (some p) r c == 4)

/-- The row-major cell enumeration of the nested loops of `Game.getResult`. -/
def scanCells : List (Nat × Nat) :=
  (List.range 6).flatMap (fun r => (List.range 7).map (fun c => (r, c)))

/-- The scanning loop of `Game.getResult`: skip `null` cells while recording
that an empty cell was seen, return the first win found (player 1 checked
before player 2 at each cell), and on exhaustion return `Draw` when no empty
cell was seen and `null` (here `none`) otherwise. -/
def resultScan (b : Board) (p1 p2 : Piece) : List (Nat × Nat) → Bool → Option GameOutcome
  | [], seenEmpty => if seenEmpty then none else some GameOutcome.Draw
  | rc :: rest, seenEmpty =>
    if b rc.1 rc.2 = none then resultScan b p1 p2 rest true
    else if hasPlayerWonAtCell b p1 rc.1 rc.2 then some GameOutcome.P1Wins
    else if hasPlayerWonAtCell b p2 rc.1 rc.2 then some GameOutcome.P2Wins
    else resultScan b p1 p2 rest seenEmpty

/-- `Game.getResult`, with the two game players' pieces made explicit
(`this.player1.piece` and `this.player2.piece`). -/
def getResult (b : Board) (p1 p2 : Piece) : Option GameOutcome :=
  resultScan b p1 p2 scanCells false

/-- `Number.MIN_SAFE_INTEGER`. -/
def minSafeInteger : Int := -9007199254740991

/-- `Number.MAX_SAFE_INTEGER`. -/
def maxSafeInteger : Int := 9007199254740991

/-- The source `PlayerPieceMap`. -/
structure PlayerPieceMap where
  maximizingPlayer : Piece
  minimizingPlayer : Piece

/-- The maximizing branch loop of `Game.minimax`: fold the children in
column order updating on a strictly greater child value. -/
def mmLoopMax (f : Board → Int → Int × Int) :
    List ChildBoard → Int → Int → Int × Int
  | [], bestCol, value => (bestCol, value)
  | cb :: rest, bestCol, value =>
    let r := f cb.board cb.col
    if value < r.2 then mmLoopMax f rest cb.col r.2
    else mmLoopMax f rest bestCol value

/-- The minimizing branch loop of `Game.minimax`: update on a strictly
smaller child value. -/
def mmLoopMin (f : Board → Int → Int × Int) :
    List ChildBoard → Int → Int → Int × Int
  | [], bestCol, value => (bestCol, value)
  | cb :: rest, bestCol, value =>
    let r := f cb.board cb.col
    if r.2 < value then mmLoopMin f rest cb.col r.2
    else mmLoopMin f rest bestCol value

/-- `Game.minimax`.  Terminal at `depth === 0` or a non-null result, where it
returns the incoming column and the static evaluation; otherwise it recurses
into every child board at `depth - 1` with the flag flipped, starting the
maximizing fold at `Number.MIN_SAFE_INTEGER` and the minimizing fold at
`Number.MAX_SAFE_INTEGER`, with best column initialised to `-1`. -/
def minimax (p1 p2 : Piece) (d : Nat) (b : Board) (isMax : Bool)
    (pm : PlayerPieceMap) (col : Int) : Int × Int :=
  match d with
  | 0 => (col, evaluateBoard b pm.maximizingPlayer pm.minimizingPlayer)
  | Nat.succ d1 =>
    if getResult b p1 p2 ≠ none then
      (col, evaluateBoard b pm.maximizingPlayer pm.minimizingPlayer)
    else
      let piece := if isMax then pm.maximizingPlayer else pm.minimizingPlayer
      let children := getChildBoardsForBoard b piece
      if isMax then
        mmLoopMax (fun b2 c2 => minimax p1 p2 d1 b2 false pm c2) children (-1) minSafeInteger
      else
        mmLoopMin (fun b2 c2 => minimax p1 p2 d1 b2 true pm c2) children (-1) maxSafeInteger

/-- The maximizing branch loop of `Game.minimaxWithAlphaBetaPruning`: the
child call receives the running `newAlpha` and the untouched `beta`; after
the value update `newAlpha` becomes `max(alpha, value)` (with the original
`alpha` parameter, as in the source) and the loop breaks once
`newAlpha >= beta`. -/
def abLoopMax (f : Board → Int → Int → Int → Int × Int) (alpha beta : Int) :
    List ChildBoard → Int → Int → Int → Int × Int
  | [], bestCol, value, _ => (bestCol, value)
  | cb :: rest, bestCol, value, newAlpha =>
    let r := f cb.board newAlpha beta cb.col
    let bestCol2 := if value < r.2 then cb.col else bestCol
    let value2 := if value < r.2 then r.2 else value
    let newAlpha2 := max alpha value2
    if beta ≤ newAlpha2 then (bestCol2, value2)
    else abLoopMax f alpha beta rest bestCol2 value2 newAlpha2

/-- The minimizing branch loop of `Game.minimaxWithAlphaBetaPruning`:
symmetric to `abLoopMax`, with `newBeta = min(beta, value)` and a break once
`newBeta <= alpha`. -/
def abLoopMin (f : Board → Int → Int → Int → Int × Int) (alpha beta : Int) :
    List ChildBoard → Int → Int → Int → Int × Int
  | [], bestCol, value, _ => (bestCol, value)
  | cb :: rest, bestCol, value, newBeta =>
    let r := f cb.board alpha newBeta cb.col
    let bestCol2 := if r.2 < value then cb.col else bestCol
    let value2 := if r.2 < value then r.2 else value
    let newBeta2 := min beta value2
    if newBeta2 ≤ alpha then (bestCol2, value2)
    else abLoopMin f alpha beta rest bestCol2 value2 newBeta2

/-- `Game.minimaxWithAlphaBetaPruning`.  Identical terminal condition and
child generation as `minimax`; `newAlpha`/`newBeta` start at the incoming
`alpha`/`beta`. -/
def minimaxWithAlphaBetaPruning (p1 p2 : Piece) (d : Nat) (b : Board)
    (alpha beta : Int) (isMax : Bool) (pm : PlayerPieceMap) (col : Int) : Int × Int :=
  match d with
  | 0 => (col, evaluateBoard b pm.maximizingPlayer pm.minimizingPlayer)
  | Nat.succ d1 =>
    if getResult b p1 p2 ≠ none then
      (col, evaluateBoard b pm.maximizingPlayer pm.minimizingPlayer)
    else
      let piece := if isMax then pm.maximizingPlayer else pm.minimizingPlayer
      let children := getChildBoardsForBoard b piece
      if isMax then
        abLoopMax (fun b2 a2 bt2 c2 => minimaxWithAlphaBetaPruning p1 p2 d1 b2 a2 bt2 false pm c2)
          alpha beta children (-1) minSafeInteger alpha
      else
        abLoopMin (fun b2 a2 bt2 c2 => minimaxWithAlphaBetaPruning p1 p2 d1 b2 a2 bt2 true pm c2)
          alpha beta children (-1) maxSafeInteger beta

/-- The acceptance test of `Player.getColumnForRandomAIMove`: the JavaScript
truthiness of `emptyRow` (`if (emptyRow)`), which is false both for `null`
and for the number 0. -/
def randomDrawAccepted (b : Board) (col : Int) : Bool :=
  match getLowestEmptyRowForColumn b col with
  | some r => decide (r ≠ 0)
  | none => false

/-- `Player.getColumnForRandomAIMove`, modelled over the sequence of columns
produced by the successive `getRandomColumn()` draws: the retry loop returns
the first draw whose lowest empty row is truthy, and never returns if no
draw of the sequence is accepted (modelled by `none` on a finite prefix). -/
def getColumnForRandomAIMove (b : Board) (draws : List Nat) : Option Nat :=
  draws.find? (fun c => randomDrawAccepted b (c : Int))

/-- A sequence of `placePiece` calls starting from a given board. -/
def applyMoves (b : Board) (moves : List (Nat × Piece)) : Board :=
  moves.foldl (fun bd m => placePiece bd (m.1 : Int) m.2) b

/-- The gravity invariant of the specification: within the played grid, an
occupied cell never sits directly above an empty one. -/
def gravityInv (b : Board) : Prop :=
  ∀ r, r < 5 → ∀ c, c < 7 → b r c ≠ none → b (r + 1) c ≠ none

instance : DecidablePred gravityInv := by
  intro b
  unfold gravityInv
  infer_instance

/-- Specification-level four-in-a-row: four consecutive cells of the piece
inside the 6 × 7 grid along a horizontal, vertical, up-right diagonal or
down-right diagonal line. -/
def fourInARow (b : Board) (p : Piece) : Prop :=
  (∃ r, r < 6 ∧ ∃ c, c < 4 ∧ ∀ k, k < 4 → b r (c + k) = some p)
  ∨ (∃ r, r < 3 ∧ ∃ c, c < 7 ∧ ∀ k, k < 4 → b (r + k) c = some p)
  ∨ (∃ r, r < 6 ∧ 3 ≤ r ∧ ∃ c, c < 4 ∧ ∀ k, k < 4 → b (r - k) (c + k) = some p)
  ∨ (∃ r, r < 3 ∧ ∃ c, c < 4 ∧ ∀ k, k < 4 → b (r + k) (c + k) = some p)

instance (b : Board) (p : Piece) : Decidable (fourInARow b p) := by
  unfold fourInARow
  infer_instance

/-! ## Basic facts about cell reads and counting -/

lemma jsTruthy_some_iff (x : Cell) : jsTruthy (some x) = true ↔ x ≠ none := by
  cases x <;> simp [jsTruthy]

lemma jsIsNull_some_iff (x : Cell) : jsIsNull (some x) = true ↔ x = none := by
  cases x <;> simp [jsIsNull]

lemma jsCell_inRange (b : Board) (r c : Nat) (hr : r < 6) (hc : c < 7) :
    jsCell b r (c : Int) = some (b r c) := by
  unfold jsCell
  rw [if_pos ⟨hr, Int.natCast_nonneg c, by exact_mod_cast hc⟩, Int.toNat_natCast]

lemma jsCell_outOfRange (b : Board) (r : Nat) (col : Int) (h : col < 0 ∨ 7 ≤ col) :
    jsCell b r col = none := by
  unfold jsCell
  rw [if_neg]
  rintro ⟨-, h1, h2⟩
  omega

lemma jsCell_rowOutOfRange (b : Board) (r : Nat) (col : Int) (h : 6 ≤ r) :
    jsCell b r col = none := by
  unfold jsCell
  rw [if_neg]
  rintro ⟨h1, -, -⟩
  omega

lemma countCells_cons (x : Cell) (xs : List Cell) (t : Cell) :
    countCellsInArray (x :: xs) t
      = (if x = t then 1 else 0) + countCellsInArray xs t := by
  simp [countCellsInArray]

lemma countCells_le_length (l : List Cell) (t : Cell) :
    countCellsInArray l t ≤ l.length := by
  induction l with
  | nil => simp [countCellsInArray]
  | cons x xs ih =>
    rw [countCells_cons, List.length_cons]
    split <;> omega

lemma countCells_eq_length_iff (l : List Cell) (t : Cell) :
    countCellsInArray l t = l.length ↔ ∀ x ∈ l, x = t := by
  induction l with
  | nil => simp [countCellsInArray]
  | cons x xs ih =>
    have hle := countCells_le_length xs t
    rw [countCells_cons, List.length_cons]
    constructor
    · intro h
      split at h
      · rename_i hx
        intro y hy
        rcases List.mem_cons.mp hy with rfl | hmem
        · exact hx
        · exact ih.mp (by omega) y hmem
      · omega
    · intro h
      rw [if_pos (h x (by simp)), ih.mpr (fun y hy => h y (by simp [hy]))]
      omega

/-! ## The column scan of getLowestEmptyRowForColumn -/

lemma glrPred_iff (b : Board) (c row : Nat) (hc : c < 7) (hrow : row < 6) :
    glrPred b (c : Int) row = true
      ↔ ((row = 5 ∨ b (row + 1) c ≠ none) ∧ b row c = none) := by
  unfold glrPred
  rw [Bool.and_eq_true, Bool.or_eq_true, jsCell_inRange b row c hrow hc, jsIsNull_some_iff]
  by_cases h5 : row = 5
  · subst h5
    simp
  · rw [jsCell_inRange b (row + 1) c (by omega) hc, jsTruthy_some_iff]
    simp [h5]

lemma find?_range'_eq_some (p : Nat → Bool) :
    ∀ (n s r : Nat), s ≤ r → r < s + n → p r = true →
      (∀ i, s ≤ i → i < r → p i = false) → (List.range' s n).find? p = some r := by
  intro n
  induction n with
  | zero => intro s r h1 h2 _ _; omega
  | succ m ih =>
    intro s r h1 h2 hp hmin
    rw [List.range'_succ, List.find?_cons]
    rcases Nat.eq_or_lt_of_le h1 with rfl | hlt
    · rw [hp]
    · rw [hmin s le_rfl hlt]
      exact ih (s + 1) r hlt (by omega) hp (fun i hi1 hi2 => hmin i (by omega) hi2)

lemma glr_eq_some_of (b : Board) (c r : Nat) (hc : c < 7) (hr : r < 6)
    (hp : glrPred b (c : Int) r = true)
    (hmin : ∀ i, i < r → glrPred b (c : Int) i = false) :
    getLowestEmptyRowForColumn b (c : Int) = some r := by
  unfold getLowestEmptyRowForColumn
  rw [List.range_eq_range']
  exact find?_range'_eq_some _ 6 0 r (Nat.zero_le r) (by omega) hp
    (fun i _ hi => hmin i hi)

lemma glr_some_facts (b : Board) (col : Int) (row : Nat)
    (h : getLowestEmptyRowForColumn b col = some row) :
    row < 6 ∧ 0 ≤ col ∧ col < 7 ∧ b row col.toNat = none
      ∧ (row = 5 ∨ b (row + 1) col.toNat ≠ none) := by
  have hp := List.find?_some h
  have hm := List.mem_of_find?_eq_some h
  rw [List.mem_range] at hm
  unfold glrPred at hp
  rw [Bool.and_eq_true, Bool.or_eq_true] at hp
  obtain ⟨hfirst, hnull⟩ := hp
  have hcell : jsCell b row col = some (b row col.toNat) ∧ 0 ≤ col ∧ col < 7 := by
    unfold jsCell at hnull ⊢
    split at hnull
    · rename_i hcond
      rw [if_pos hcond]
      exact ⟨rfl, hcond.2.1, hcond.2.2⟩
    · exact absurd hnull (by simp [jsIsNull])
  obtain ⟨hread, hc0, hc7⟩ := hcell
  rw [hread, jsIsNull_some_iff] at hnull
  refine ⟨hm, hc0, hc7, hnull, ?_⟩
  rcases hfirst with h5 | htr
  · left; simpa using h5
  · right
    intro hcontra
    by_cases h6 : row + 1 < 6
    · rw [← Int.toNat_of_nonneg hc0] at htr
      rw [jsCell_inRange b (row + 1) col.toNat h6 (by omega)] at htr
      rw [jsTruthy_some_iff] at htr
      exact htr hcontra
    · rw [jsCell_rowOutOfRange b (row + 1) col (by omega)] at htr
      exact absurd htr (by simp [jsTruthy])

/-! ## Gravity and the placement rule -/

lemma gravity_up (b : Board) (hg : gravityInv b) (c : Nat) (hc : c < 7) :
    ∀ r2, ∀ r, r ≤ r2 → r2 < 6 → b r c ≠ none → b r2 c ≠ none := by
  intro r2
  induction r2 with
  | zero =>
    intro r hr _ hne
    have : r = 0 := by omega
    subst this
    exact hne
  | succ m ih =>
    intro r hr h6 hne
    rcases Nat.lt_or_ge r (m + 1) with h | h
    · exact hg m (by omega) c hc (ih r (by omega) (by omega) hne)
    · have : r = m + 1 := by omega
      subst this
      exact hne

lemma glr_isSome_of_empty (b : Board) (c : Nat) (hc : c < 7) :
    ∀ fuel r, r < 6 → 5 - r ≤ fuel → b r c = none →
      getLowestEmptyRowForColumn b (c : Int) ≠ none := by
  intro fuel
  induction fuel with
  | zero =>
    intro r hr hf he
    have h5 : r = 5 := by omega
    subst h5
    intro hnone
    rw [getLowestEmptyRowForColumn, List.find?_eq_none] at hnone
    exact hnone 5 (by simp) ((glrPred_iff b c 5 hc (by omega)).mpr ⟨Or.inl rfl, he⟩)
  | succ m ih =>
    intro r hr hf he
    by_cases h5 : r = 5
    · subst h5
      intro hnone
      rw [getLowestEmptyRowForColumn, List.find?_eq_none] at hnone
      exact hnone 5 (by simp) ((glrPred_iff b c 5 hc (by omega)).mpr ⟨Or.inl rfl, he⟩)
    · cases hrc : b (r + 1) c with
      | none => exact ih (r + 1) (by omega) (by omega) hrc
      | some q =>
        intro hnone
        rw [getLowestEmptyRowForColumn, List.find?_eq_none] at hnone
        exact hnone r (by simp [List.mem_range]; omega)
          ((glrPred_iff b c r hc hr).mpr ⟨Or.inr (by simp [hrc]), he⟩)

lemma placePiece_eq_update (b : Board) (col : Int) (p : Piece) (row : Nat)
    (h : getLowestEmptyRowForColumn b col = some row) :
    placePiece b col p = fun r c => if r = row ∧ c = col.toNat then some p else b r c := by
  unfold placePiece
  rw [h]

lemma placePiece_eq_self (b : Board) (col : Int) (p : Piece)
    (h : getLowestEmptyRowForColumn b col = none) : placePiece b col p = b := by
  unfold placePiece
  rw [h]

lemma placePiece_gravity (b : Board) (col : Int) (p : Piece) (hg : gravityInv b) :
    gravityInv (placePiece b col p) := by
  cases h : getLowestEmptyRowForColumn b col with
  | none => rw [placePiece_eq_self b col p h]; exact hg
  | some row =>
    obtain ⟨hrow6, hc0, hc7, hnull, hbelow⟩ := glr_some_facts b col row h
    rw [placePiece_eq_update b col p row h]
    intro r hr c hc hne
    simp only [] at hne ⊢
    by_cases hrc : r = row ∧ c = col.toNat
    · obtain ⟨rfl, rfl⟩ := hrc
      rw [if_neg (by omega)]
      rcases hbelow with h5 | hocc
      · omega
      · exact hocc
    · rw [if_neg hrc] at hne
      have hup := hg r hr c hc hne
      by_cases h2 : r + 1 = row ∧ c = col.toNat
      · rw [if_pos h2]
        simp
      · rw [if_neg h2]
        exact hup

lemma emptyBoard_gravity : gravityInv emptyBoard := by
  intro r _ c _ hne
  exact absurd rfl hne

/-- C3: under the gravity invariant, for an in-range column,
`getLowestEmptyRowForColumn` returns exactly the unique row whose cell is
empty with every cell below it in the column occupied, and returns `none`
precisely when the top cell (row 0) of the column is occupied. -/
theorem c3_lowest_empty_row_correct (b : Board) (c : Nat)
    (hg : gravityInv b) (hc : c < 7) :
    (getLowestEmptyRowForColumn b (c : Int) = none ↔ b 0 c ≠ none) ∧
    (∀ r, getLowestEmptyRowForColumn b (c : Int) = some r ↔
      (r < 6 ∧ b r c = none ∧ ∀ r2, r < r2 → r2 < 6 → b r2 c ≠ none)) := by
  constructor
  · constructor
    · intro hnone htop
      exact glr_isSome_of_empty b c hc 5 0 (by omega) (by omega) htop hnone
    · intro htop
      rw [getLowestEmptyRowForColumn, List.find?_eq_none]
      intro row hrow
      rw [List.mem_range] at hrow
      rw [glrPred_iff b c row hc hrow]
      rintro ⟨-, hemp⟩
      exact gravity_up b hg c hc row 0 (by omega) hrow htop hemp
  · intro r
    constructor
    · intro h
      have hp := List.find?_some h
      have hm := List.mem_of_find?_eq_some h
      rw [List.mem_range] at hm
      rw [glrPred_iff b c r hc hm] at hp
      obtain ⟨hfirst, hemp⟩ := hp
      refine ⟨hm, hemp, ?_⟩
      intro r2 hr2a hr2b
      rcases hfirst with h5 | hocc
      · omega
      · exact gravity_up b hg c hc r2 (r + 1) (by omega) hr2b hocc
    · rintro ⟨hr6, hemp, hbelow⟩
      apply glr_eq_some_of b c r hc hr6
      · rw [glrPred_iff b c r hc hr6]
        refine ⟨?_, hemp⟩
        by_cases h5 : r = 5
        · exact Or.inl h5
        · exact Or.inr (hbelow (r + 1) (by omega) (by omega))
      · intro i hi
        have hi6 : i < 6 := by omega
        rw [← Bool.not_eq_true, glrPred_iff b c i hc hi6]
        rintro ⟨hif, hie⟩
        rcases hif with h5 | hocc
        · omega
        · exact gravity_up b hg c hc r (i + 1) (by omega) hr6 hocc hemp

/-- C4: starting from the empty board, any sequence of `placePiece` calls on
in-range columns preserves the gravity invariant: no occupied cell ever sits
directly above an empty cell of the same column. -/
theorem c4_gravity_preserved (moves : List (Nat × Piece))
    (hm : ∀ m ∈ moves, m.1 < 7) :
    gravityInv (applyMoves emptyBoard moves) := by
  have aux : ∀ (ms : List (Nat × Piece)) (b : Board), gravityInv b →
      gravityInv (applyMoves b ms) := by
    intro ms
    induction ms with
    | nil => intro b hb; exact hb
    | cons m rest ih =>
      intro b hb
      exact ih (placePiece b (m.1 : Int) m.2) (placePiece_gravity b (m.1 : Int) m.2 hb)
  exact aux moves emptyBoard emptyBoard_gravity

/-! ## Out-of-range columns and the frame property of placePiece -/

/-- A board whose column 0 is completely full, used to compare the
out-of-range behaviour with the legitimate column-full signal. -/
def fullColZeroBoard : Board := fun r c => if c = 0 ∧ r < 6 then some Piece.Red else none

/-- C8 counterexample: an out-of-range column is not answered with any
error signal.  On the empty board, where every valid column is playable,
column 7 and column -1 produce exactly the `null` return that the
documentation of `getLowestEmptyRowForColumn` reserves for a full column
(the same observable as legitimately full column 0 of `fullColZeroBoard`),
and `placePiece` silently does nothing. -/
theorem c8_counterexample :
    getLowestEmptyRowForColumn emptyBoard 7 = none ∧
    getLowestEmptyRowForColumn emptyBoard (-1) = none ∧
    getLowestEmptyRowForColumn fullColZeroBoard 0 = none ∧
    placePiece emptyBoard 7 Piece.Red = emptyBoard ∧
    placePiece emptyBoard (-1) Piece.Red = emptyBoard := by
  refine ⟨by decide, by decide, by decide, ?_, ?_⟩
  · exact placePiece_eq_self emptyBoard 7 Piece.Red (by decide)
  · exact placePiece_eq_self emptyBoard (-1) Piece.Red (by decide)

/-- C8 amended: for every column index outside [0, 7), the core neither
clamps the index nor writes anywhere: `getLowestEmptyRowForColumn` returns
the plain column-full signal `none` (no distinct error is raised) and
`placePiece` leaves the board exactly as it was. -/
theorem c8_out_of_range_silent (b : Board) (p : Piece) (col : Int)
    (h : col < 0 ∨ 7 ≤ col) :
    getLowestEmptyRowForColumn b col = none ∧ placePiece b col p = b := by
  have hnone : getLowestEmptyRowForColumn b col = none := by
    rw [getLowestEmptyRowForColumn, List.find?_eq_none]
    intro row _
    unfold glrPred
    rw [jsCell_outOfRange b row col h]
    simp [jsIsNull]
  exact ⟨hnone, placePiece_eq_self b col p hnone⟩

/-- C8 witness: the amended theorem applied to column 7 on the empty board. -/
theorem c8_witness :
    getLowestEmptyRowForColumn emptyBoard 7 = none ∧
    placePiece emptyBoard 7 Piece.Yellow = emptyBoard :=
  c8_out_of_range_silent emptyBoard Piece.Yellow 7 (Or.inr (by decide))

/-- C9: for an in-range column, when the column is not full `placePiece`
writes the piece exactly at `(getLowestEmptyRowForColumn b col, col)` and
leaves every other cell unchanged, and when the column is full it returns
the board unchanged.  The absence of effects on any other board holds by
construction in this value semantics: the result is a function of the
argument board alone. -/
theorem c9_place_frame (b : Board) (c : Nat) (p : Piece) (hc : c < 7) :
    (∀ row, getLowestEmptyRowForColumn b (c : Int) = some row →
      placePiece b (c : Int) p row c = some p ∧
      ∀ r2 c2, ¬(r2 = row ∧ c2 = c) → placePiece b (c : Int) p r2 c2 = b r2 c2) ∧
    (getLowestEmptyRowForColumn b (c : Int) = none → placePiece b (c : Int) p = b) := by
  constructor
  · intro row h
    rw [placePiece_eq_update b (c : Int) p row h]
    constructor
    · simp [Int.toNat_natCast]
    · intro r2 c2 hne
      simp only []
      rw [if_neg]
      rw [Int.toNat_natCast]
      exact hne
  · intro h
    exact placePiece_eq_self b (c : Int) p h

/-- C9 witness: on the empty board at column 3 the write lands at the
bottom cell (5, 3) and the cell (0, 0) is untouched. -/
theorem c9_witness :
    placePiece emptyBoard (3 : Int) Piece.Red 5 3 = some Piece.Red ∧
    placePiece emptyBoard (3 : Int) Piece.Red 0 0 = emptyBoard 0 0 := by
  have h := c9_place_frame emptyBoard 3 Piece.Red (by decide)
  exact ⟨(h.1 5 (by decide)).1, (h.1 5 (by decide)).2 0 0 (by decide)⟩

/-- C3 witness: the empty board satisfies the gravity invariant and column
3 gets its bottom row 5, with the below-occupied condition vacuous. -/
theorem c3_witness :
    getLowestEmptyRowForColumn emptyBoard (3 : Nat) = some 5 ∧ gravityInv emptyBoard := by
  have h := c3_lowest_empty_row_correct emptyBoard 3 emptyBoard_gravity (by decide)
  refine ⟨(h.2 5).mpr ⟨by decide, by decide, ?_⟩, emptyBoard_gravity⟩
  intro r2 h1 h2
  omega

/-- C4 witness: the invariant after a concrete three-move sequence. -/
theorem c4_witness :
    gravityInv (applyMoves emptyBoard
      [(0, Piece.Red), (0, Piece.Yellow), (3, Piece.Red)]) :=
  c4_gravity_preserved [(0, Piece.Red), (0, Piece.Yellow), (3, Piece.Red)] (by decide)

/-! ## The evaluator and its sign structure -/

lemma evaluateMetrics_antisymm (a m e : Nat) :
    evaluateMetrics a m e + evaluateMetrics m a e = 0 := by
  unfold evaluateMetrics
  ring

lemma sum_add_sum_eq_zero {α : Type} (f g : α → Int) (l : List α)
    (h : ∀ x ∈ l, f x + g x = 0) :
    (l.map f).sum + (l.map g).sum = 0 := by
  induction l with
  | nil => simp
  | cons x xs ih =>
    simp only [List.map_cons, List.sum_cons]
    have h1 := h x (by simp)
    have h2 := ih (fun y hy => h y (by simp [hy]))
    omega

/-- The board holding exactly one red piece at the bottom of the centre
column, the concrete input refuting the evaluator sign symmetry. -/
def singleRedCenterBoard : Board :=
  fun r c => if r = 5 ∧ c = 3 then some Piece.Red else none

/-- C5 counterexample: with a single red piece at the bottom of the centre
column (no four-in-a-row anywhere), `evaluateBoard(b, Red, Yellow) = 3` from
the centre bonus while `evaluateBoard(b, Yellow, Red) = 0`, so the scores
are not negations of each other. -/
theorem c5_counterexample :
    Piece.Red ≠ Piece.Yellow ∧
    ¬ fourInARow singleRedCenterBoard Piece.Red ∧
    ¬ fourInARow singleRedCenterBoard Piece.Yellow ∧
    evaluateBoard singleRedCenterBoard Piece.Red Piece.Yellow = 3 ∧
    evaluateBoard singleRedCenterBoard Piece.Yellow Piece.Red = 0 ∧
    evaluateBoard singleRedCenterBoard Piece.Red Piece.Yellow
      ≠ -evaluateBoard singleRedCenterBoard Piece.Yellow Piece.Red := by
  exact ⟨by decide, by decide, by decide, by decide, by decide, by decide⟩

/-- C5 amended: the window scores are antisymmetric under swapping the two
pieces, but the centre-column bonus is applied only for the first piece, so
for every board the two scores sum to three times the total number of
centre-column pieces of the two sides instead of zero; sign symmetry holds
exactly on boards whose centre column holds no piece of either side. -/
theorem c5_center_asymmetry_identity (b : Board) (pA pB : Piece) :
    evaluateBoard b pA pB + evaluateBoard b pB pA
      = 3 * ((countCellsInArray (centerColumn b) (some pA) : Int)
             + (countCellsInArray (centerColumn b) (some pB) : Int)) := by
  unfold evaluateBoard
  have hcell : ∀ r ∈ List.range 6,
      ((List.range 7).map (fun c =>
        evaluateHorizontally b pA pB r c + evaluateDiagonallyUp b pA pB r c
        + evaluateDiagonallyDown b pA pB r c + evaluateVertically b pA pB r c)).sum
      + ((List.range 7).map (fun c =>
        evaluateHorizontally b pB pA r c + evaluateDiagonallyUp b pB pA r c
        + evaluateDiagonallyDown b pB pA r c + evaluateVertically b pB pA r c)).sum = 0 := by
    intro r _
    apply sum_add_sum_eq_zero
    intro c _
    have h1 := evaluateMetrics_antisymm (numMatchingCellsHorizontally b (some pA) r c)
      (numMatchingCellsHorizontally b (some pB) r c) (numMatchingCellsHorizontally b none r c)
    have h2 := evaluateMetrics_antisymm (numMatchingCellsDiagonallyUp b (some pA) r c)
      (numMatchingCellsDiagonallyUp b (some pB) r c) (numMatchingCellsDiagonallyUp b none r c)
    have h3 := evaluateMetrics_antisymm (numMatchingCellsDiagonallyDown b (some pA) r c)
      (numMatchingCellsDiagonallyDown b (some pB) r c) (numMatchingCellsDiagonallyDown b none r c)
    have h4 := evaluateMetrics_antisymm (numMatchingCellsVertically b (some pA) r c)
      (numMatchingCellsVertically b (some pB) r c) (numMatchingCellsVertically b none r c)
    unfold evaluateHorizontally evaluateDiagonallyUp evaluateDiagonallyDown evaluateVertically
    omega
  have hsum := sum_add_sum_eq_zero
    (fun r => ((List.range 7).map (fun c =>
      evaluateHorizontally b pA pB r c + evaluateDiagonallyUp b pA pB r c
      + evaluateDiagonallyDown b pA pB r c + evaluateVertically b pA pB r c)).sum)
    (fun r => ((List.range 7).map (fun c =>
      evaluateHorizontally b pB pA r c + evaluateDiagonallyUp b pB pA r c
      + evaluateDiagonallyDown b pB pA r c + evaluateVertically b pB pA r c)).sum)
    (List.range 6) hcell
  omega

/-! ## The random-move acceptance test -/

/-- A board whose column 0 is full except for its top cell (row 0): the
column is playable but its lowest empty row is the falsy number 0. -/
def colZeroNearlyFullBoard : Board :=
  fun r c => if c = 0 ∧ 1 ≤ r ∧ r < 6 then some Piece.Red else none

/-- C7: evaluation of the random-move path at the failing input.  Column 0
of `colZeroNearlyFullBoard` is playable (its lowest empty row is row 0), yet
the truthiness test `if (emptyRow)` of `getColumnForRandomAIMove` treats the
number 0 as false, so the draw is rejected and redrawn: with a draw sequence
consisting of the playable column 0 the loop never returns. -/
theorem c7_random_rejects_playable_column :
    getLowestEmptyRowForColumn colZeroNearlyFullBoard 0 = some 0 ∧
    canPlayAtColumn colZeroNearlyFullBoard 0 = true ∧
    randomDrawAccepted colZeroNearlyFullBoard 0 = false ∧
    getColumnForRandomAIMove colZeroNearlyFullBoard [0] = none := by
  exact ⟨by decide, by decide, by decide, by decide⟩

/-! ## The empty-children edge case of the search -/

lemma mem_scanCells (rc : Nat × Nat) : rc ∈ scanCells ↔ rc.1 < 6 ∧ rc.2 < 7 := by
  obtain ⟨r, c⟩ := rc
  unfold scanCells
  simp only [List.mem_flatMap, List.mem_map, List.mem_range, Prod.mk.injEq]
  constructor
  · rintro ⟨a, ha, cc, hcc, rfl, rfl⟩
    exact ⟨ha, hcc⟩
  · rintro ⟨hr, hc⟩
    exact ⟨r, hr, c, hc, rfl, rfl⟩

lemma resultScan_ne_none_of_occupied (b : Board) (p1 p2 : Piece) :
    ∀ L : List (Nat × Nat), (∀ rc ∈ L, b rc.1 rc.2 ≠ none) →
      resultScan b p1 p2 L false ≠ none := by
  intro L
  induction L with
  | nil => intro _; simp [resultScan]
  | cons rc rest ih =>
    intro h
    simp only [resultScan]
    rw [if_neg (h rc (by simp))]
    split
    · simp
    · split
      · simp
      · exact ih (fun y hy => h y (by simp [hy]))

lemma no_children_all_occupied (b : Board) (p : Piece)
    (h : getChildBoardsForBoard b p = []) :
    ∀ r c, r < 6 → c < 7 → b r c ≠ none := by
  intro r c hr hc hne
  rw [getChildBoardsForBoard, List.filterMap_eq_nil_iff] at h
  have hcp := h c (by rw [List.mem_range]; omega)
  by_cases hplay : canPlayAtColumn b (c : Int) = true
  · rw [if_pos hplay] at hcp
    exact Option.some_ne_none _ hcp
  · cases hglr : getLowestEmptyRowForColumn b (c : Int) with
    | some row =>
      rw [canPlayAtColumn, hglr] at hplay
      exact hplay rfl
    | none => exact glr_isSome_of_empty b c hc 5 r hr (by omega) hne hglr

lemma getResult_ne_none_of_no_children (b : Board) (p : Piece) (p1 p2 : Piece)
    (h : getChildBoardsForBoard b p = []) : getResult b p1 p2 ≠ none := by
  unfold getResult
  apply resultScan_ne_none_of_occupied
  intro rc hrc
  rw [mem_scanCells] at hrc
  exact no_children_all_occupied b p h rc.1 rc.2 hrc.1 hrc.2

/-- C6: a call of either search routine at positive depth on a board where
no column is playable is necessarily terminal: an unplayable column is a
full column, a fully occupied board makes `getResult` non-null (so the
parenthetical "getResult null" of the claim can never hold together with an
empty child list), and both routines return the well-defined pair of the
incoming column and the static evaluation of the current board without ever
comparing against the empty child set; being total functions, every
recursive path returns a value. -/
theorem c6_empty_children_safe (p1 p2 piece : Piece) (b : Board) (d : Nat)
    (isMax : Bool) (pm : PlayerPieceMap) (col alpha beta : Int)
    (h : getChildBoardsForBoard b piece = []) :
    getResult b p1 p2 ≠ none ∧
    minimax p1 p2 (d + 1) b isMax pm col
      = (col, evaluateBoard b pm.maximizingPlayer pm.minimizingPlayer) ∧
    minimaxWithAlphaBetaPruning p1 p2 (d + 1) b alpha beta isMax pm col
      = (col, evaluateBoard b pm.maximizingPlayer pm.minimizingPlayer) := by
  have hres := getResult_ne_none_of_no_children b piece p1 p2 h
  refine ⟨hres, ?_, ?_⟩
  · show (if getResult b p1 p2 ≠ none then
      (col, evaluateBoard b pm.maximizingPlayer pm.minimizingPlayer)
      else _) = _
    rw [if_pos hres]
  · show (if getResult b p1 p2 ≠ none then
      (col, evaluateBoard b pm.maximizingPlayer pm.minimizingPlayer)
      else _) = _
    rw [if_pos hres]

/-- The completely full board used to witness the empty-children case. -/
def fullBoard : Board := fun r c => if r < 6 ∧ c < 7 then some Piece.Red else none

/-- C6 witness: the full board has an empty child list, and the search at
depth 1 takes the terminal branch. -/
theorem c6_witness :
    getChildBoardsForBoard fullBoard Piece.Red = [] ∧
    (getResult fullBoard Piece.Red Piece.Yellow ≠ none ∧
     minimax Piece.Red Piece.Yellow 1 fullBoard true
        ⟨Piece.Red, Piece.Yellow⟩ (-1)
       = (-1, evaluateBoard fullBoard Piece.Red Piece.Yellow) ∧
     minimaxWithAlphaBetaPruning Piece.Red Piece.Yellow 1 fullBoard
        minSafeInteger maxSafeInteger true ⟨Piece.Red, Piece.Yellow⟩ (-1)
       = (-1, evaluateBoard fullBoard Piece.Red Piece.Yellow)) :=
  have hempty : getChildBoardsForBoard fullBoard Piece.Red = [] :=
    List.isEmpty_iff.mp (by decide)
  ⟨hempty,
   c6_empty_children_safe Piece.Red Piece.Yellow Piece.Red fullBoard 0 true
     ⟨Piece.Red, Piece.Yellow⟩ (-1) minSafeInteger maxSafeInteger hempty⟩

/-- C10: the search recursion is well-founded on the depth counter: at
depth 0 both routines return immediately with the static evaluation (the
base case), and at depth d + 1 every recursive call they make is at depth d,
so both are total functions of their arguments and every call returns a
value. -/
theorem c10_search_terminates (p1 p2 : Piece) (b : Board) (isMax : Bool)
    (pm : PlayerPieceMap) (col alpha beta : Int) (d : Nat) :
    (minimax p1 p2 0 b isMax pm col
       = (col, evaluateBoard b pm.maximizingPlayer pm.minimizingPlayer)) ∧
    (minimaxWithAlphaBetaPruning p1 p2 0 b alpha beta isMax pm col
       = (col, evaluateBoard b pm.maximizingPlayer pm.minimizingPlayer)) ∧
    (minimax p1 p2 (d + 1) b isMax pm col =
      if getResult b p1 p2 ≠ none then
        (col, evaluateBoard b pm.maximizingPlayer pm.minimizingPlayer)
      else if isMax then
        mmLoopMax (fun b2 c2 => minimax p1 p2 d b2 false pm c2)
          (getChildBoardsForBoard b pm.maximizingPlayer) (-1) minSafeInteger
      else
        mmLoopMin (fun b2 c2 => minimax p1 p2 d b2 true pm c2)
          (getChildBoardsForBoard b pm.minimizingPlayer) (-1) maxSafeInteger) ∧
    (minimaxWithAlphaBetaPruning p1 p2 (d + 1) b alpha beta isMax pm col =
      if getResult b p1 p2 ≠ none then
        (col, evaluateBoard b pm.maximizingPlayer pm.minimizingPlayer)
      else if isMax then
        abLoopMax
          (fun b2 a2 bt2 c2 =>
            minimaxWithAlphaBetaPruning p1 p2 d b2 a2 bt2 false pm c2)
          alpha beta (getChildBoardsForBoard b pm.maximizingPlayer)
          (-1) minSafeInteger alpha
      else
        abLoopMin
          (fun b2 a2 bt2 c2 =>
            minimaxWithAlphaBetaPruning p1 p2 d b2 a2 bt2 true pm c2)
          alpha beta (getChildBoardsForBoard b pm.minimizingPlayer)
          (-1) maxSafeInteger beta) := by
  refine ⟨rfl, rfl, ?_, ?_⟩
  · by_cases hres : getResult b p1 p2 ≠ none
    · rw [if_pos hres]
      show (if getResult b p1 p2 ≠ none then _ else _) = _
      rw [if_pos hres]
    · rw [if_neg hres]
      show (if getResult b p1 p2 ≠ none then _ else _) = _
      rw [if_neg hres]
      cases isMax <;> simp
  · by_cases hres : getResult b p1 p2 ≠ none
    · rw [if_pos hres]
      show (if getResult b p1 p2 ≠ none then _ else _) = _
      rw [if_pos hres]
    · rw [if_neg hres]
      show (if getResult b p1 p2 ≠ none then _ else _) = _
      rw [if_neg hres]
      cases isMax <;> simp

/-! ## Characterization of the win detection -/

lemma countRange_eq_four_iff (f : Nat → Cell) (n : Nat) (p : Piece) (hn : n ≤ 4) :
    countCellsInArray ((List.range n).map f) (some p) = 4
      ↔ (n = 4 ∧ ∀ k, k < 4 → f k = some p) := by
  constructor
  · intro h
    have hle := countCells_le_length ((List.range n).map f) (some p)
    rw [h, List.length_map, List.length_range] at hle
    have hn4 : n = 4 := by omega
    subst hn4
    refine ⟨rfl, ?_⟩
    have hall := (countCells_eq_length_iff ((List.range 4).map f) (some p)).mp
      (by rw [h]; simp)
    intro k hk
    exact hall (f k) (List.mem_map.mpr ⟨k, List.mem_range.mpr hk, rfl⟩)
  · rintro ⟨rfl, hall⟩
    have hx : ∀ x ∈ (List.range 4).map f, x = some p := by
      intro x hx
      rw [List.mem_map] at hx
      obtain ⟨k, hk, rfl⟩ := hx
      exact hall k (List.mem_range.mp hk)
    rw [(countCells_eq_length_iff _ _).mpr hx]
    simp

lemma numH_eq_four_iff (b : Board) (p : Piece) (r c : Nat) :
    numMatchingCellsHorizontally b (some p) r c = 4
      ↔ (c < 4 ∧ ∀ k, k < 4 → b r (c + k) = some p) := by
  unfold numMatchingCellsHorizontally windowHorizontal
  rw [countRange_eq_four_iff _ _ _ (by omega)]
  constructor
  · rintro ⟨hn, hall⟩
    exact ⟨by omega, hall⟩
  · rintro ⟨hc, hall⟩
    exact ⟨by omega, hall⟩

lemma numDU_eq_four_iff (b : Board) (p : Piece) (r c : Nat) :
    numMatchingCellsDiagonallyUp b (some p) r c = 4
      ↔ (3 ≤ r ∧ c < 4 ∧ ∀ k, k < 4 → b (r - k) (c + k) = some p) := by
  unfold numMatchingCellsDiagonallyUp windowDiagUp
  rw [countRange_eq_four_iff _ _ _ (by omega)]
  constructor
  · rintro ⟨hn, hall⟩
    exact ⟨by omega, by omega, hall⟩
  · rintro ⟨hr, hc, hall⟩
    exact ⟨by omega, hall⟩

lemma numDD_eq_four_iff (b : Board) (p : Piece) (r c : Nat) :
    numMatchingCellsDiagonallyDown b (some p) r c = 4
      ↔ (r < 3 ∧ c < 4 ∧ ∀ k, k < 4 → b (r + k) (c + k) = some p) := by
  unfold numMatchingCellsDiagonallyDown windowDiagDown
  rw [countRange_eq_four_iff _ _ _ (by omega)]
  constructor
  · rintro ⟨hn, hall⟩
    exact ⟨by omega, by omega, hall⟩
  · rintro ⟨hr, hc, hall⟩
    exact ⟨by omega, hall⟩

lemma numV_eq_four_iff (b : Board) (p : Piece) (r c : Nat) :
    numMatchingCellsVertically b (some p) r c = 4
      ↔ (r < 3 ∧ ∀ k, k < 4 → b (r + k) c = some p) := by
  unfold numMatchingCellsVertically windowVertical
  rw [countRange_eq_four_iff _ _ _ (by omega)]
  constructor
  · rintro ⟨hn, hall⟩
    exact ⟨by omega, hall⟩
  · rintro ⟨hr, hall⟩
    exact ⟨by omega, hall⟩

/-- The condition under which `hasPlayerWonAtCell` fires: a four-cell window
of the piece starts at the given cell in one of the four directions. -/
def startsFour (b : Board) (p : Piece) (r c : Nat) : Prop :=
  (c < 4 ∧ ∀ k, k < 4 → b r (c + k) = some p)
  ∨ (3 ≤ r ∧ c < 4 ∧ ∀ k, k < 4 → b (r - k) (c + k) = some p)
  ∨ (r < 3 ∧ c < 4 ∧ ∀ k, k < 4 → b (r + k) (c + k) = some p)
  ∨ (r < 3 ∧ ∀ k, k < 4 → b (r + k) c = some p)

lemma hasWon_iff_startsFour (b : Board) (p : Piece) (r c : Nat) :
    hasPlayerWonAtCell b p r c = true ↔ startsFour b p r c := by
  unfold hasPlayerWonAtCell startsFour
  rw [Bool.or_eq_true, Bool.or_eq_true, Bool.or_eq_true,
    beq_iff_eq, beq_iff_eq, beq_iff_eq, beq_iff_eq,
    numH_eq_four_iff, numDU_eq_four_iff, numDD_eq_four_iff, numV_eq_four_iff]
  tauto

lemma fourInARow_iff_exists_start (b : Board) (p : Piece) :
    fourInARow b p ↔ ∃ r, r < 6 ∧ ∃ c, c < 7 ∧ startsFour b p r c := by
  unfold fourInARow startsFour
  constructor
  · rintro (⟨r, hr, c, hc, hall⟩ | ⟨r, hr, c, hc, hall⟩
      | ⟨r, hr1, hr2, c, hc, hall⟩ | ⟨r, hr, c, hc, hall⟩)
    · exact ⟨r, hr, c, by omega, Or.inl ⟨hc, hall⟩⟩
    · exact ⟨r, by omega, c, hc, Or.inr (Or.inr (Or.inr ⟨hr, hall⟩))⟩
    · exact ⟨r, hr1, c, by omega, Or.inr (Or.inl ⟨hr2, hc, hall⟩)⟩
    · exact ⟨r, by omega, c, by omega, Or.inr (Or.inr (Or.inl ⟨hr, hc, hall⟩))⟩
  · rintro ⟨r, hr, c, hc, (⟨hc4, hall⟩ | ⟨hr3, hc4, hall⟩ | ⟨hr3, hc4, hall⟩ | ⟨hr3, hall⟩)⟩
    · exact Or.inl ⟨r, hr, c, hc4, hall⟩
    · exact Or.inr (Or.inr (Or.inl ⟨r, hr, hr3, c, hc4, hall⟩))
    · exact Or.inr (Or.inr (Or.inr ⟨r, hr3, c, hc4, hall⟩))
    · exact Or.inr (Or.inl ⟨r, hr3, c, hc, hall⟩)

lemma startsFour_cell (b : Board) (p : Piece) (r c : Nat)
    (h : startsFour b p r c) : b r c = some p := by
  rcases h with ⟨-, hall⟩ | ⟨-, -, hall⟩ | ⟨-, -, hall⟩ | ⟨-, hall⟩ <;>
  · have h0 := hall 0 (by omega)
    simpa using h0

lemma no_win_cells (b : Board) (p : Piece) (h : ¬ fourInARow b p) :
    ∀ rc ∈ scanCells, hasPlayerWonAtCell b p rc.1 rc.2 = false := by
  intro rc hm
  rw [mem_scanCells] at hm
  rw [← Bool.not_eq_true, hasWon_iff_startsFour]
  intro hs
  exact h ((fourInARow_iff_exists_start b p).mpr ⟨rc.1, hm.1, rc.2, hm.2, hs⟩)

lemma win_cell_exists (b : Board) (p : Piece) (h : fourInARow b p) :
    ∃ rc ∈ scanCells, b rc.1 rc.2 ≠ none ∧ hasPlayerWonAtCell b p rc.1 rc.2 = true := by
  obtain ⟨r, hr, c, hc, hs⟩ := (fourInARow_iff_exists_start b p).mp h
  refine ⟨(r, c), (mem_scanCells (r, c)).mpr ⟨hr, hc⟩, ?_, (hasWon_iff_startsFour b p r c).mpr hs⟩
  rw [startsFour_cell b p r c hs]
  simp

/-! ## Behaviour of the getResult scan -/

lemma resultScan_p1win (b : Board) (p1 p2 : Piece) :
    ∀ (L : List (Nat × Nat)) (seen : Bool),
      (∃ rc ∈ L, b rc.1 rc.2 ≠ none ∧ hasPlayerWonAtCell b p1 rc.1 rc.2 = true) →
      (∀ rc ∈ L, hasPlayerWonAtCell b p2 rc.1 rc.2 = false) →
      resultScan b p1 p2 L seen = some GameOutcome.P1Wins := by
  intro L
  induction L with
  | nil =>
    rintro seen ⟨rc, h, -⟩ -
    exact absurd h (List.not_mem_nil rc)
  | cons rc0 rest ih =>
    rintro seen ⟨rc, hmem, hocc, hwin⟩ hno2
    simp only [resultScan]
    by_cases h0 : b rc0.1 rc0.2 = none
    · rw [if_pos h0]
      apply ih
      · refine ⟨rc, ?_, hocc, hwin⟩
        rcases List.mem_cons.mp hmem with rfl | h
        · exact absurd h0 hocc
        · exact h
      · exact fun y hy => hno2 y (by simp [hy])
    · rw [if_neg h0]
      by_cases h1 : hasPlayerWonAtCell b p1 rc0.1 rc0.2 = true
      · rw [if_pos h1]
      · rw [if_neg h1, if_neg (by rw [hno2 rc0 (by simp)]; simp)]
        apply ih
        · refine ⟨rc, ?_, hocc, hwin⟩
          rcases List.mem_cons.mp hmem with rfl | h
          · exact absurd hwin h1
          · exact h
        · exact fun y hy => hno2 y (by simp [hy])

lemma resultScan_p2win (b : Board) (p1 p2 : Piece) :
    ∀ (L : List (Nat × Nat)) (seen : Bool),
      (∃ rc ∈ L, b rc.1 rc.2 ≠ none ∧ hasPlayerWonAtCell b p2 rc.1 rc.2 = true) →
      (∀ rc ∈ L, hasPlayerWonAtCell b p1 rc.1 rc.2 = false) →
      resultScan b p1 p2 L seen = some GameOutcome.P2Wins := by
  intro L
  induction L with
  | nil =>
    rintro seen ⟨rc, h, -⟩ -
    exact absurd h (List.not_mem_nil rc)
  | cons rc0 rest ih =>
    rintro seen ⟨rc, hmem, hocc, hwin⟩ hno1
    simp only [resultScan]
    by_cases h0 : b rc0.1 rc0.2 = none
    · rw [if_pos h0]
      apply ih
      · refine ⟨rc, ?_, hocc, hwin⟩
        rcases List.mem_cons.mp hmem with rfl | h
        · exact absurd h0 hocc
        · exact h
      · exact fun y hy => hno1 y (by simp [hy])
    · rw [if_neg h0, if_neg (by rw [hno1 rc0 (by simp)]; simp)]
      by_cases h2 : hasPlayerWonAtCell b p2 rc0.1 rc0.2 = true
      · rw [if_pos h2]
      · rw [if_neg h2]
        apply ih
        · refine ⟨rc, ?_, hocc, hwin⟩
          rcases List.mem_cons.mp hmem with rfl | h
          · exact absurd hwin h2
          · exact h
        · exact fun y hy => hno1 y (by simp [hy])

lemma resultScan_nowin_none (b : Board) (p1 p2 : Piece) :
    ∀ (L : List (Nat × Nat)) (seen : Bool),
      (∀ rc ∈ L, hasPlayerWonAtCell b p1 rc.1 rc.2 = false
        ∧ hasPlayerWonAtCell b p2 rc.1 rc.2 = false) →
      (seen = true ∨ ∃ rc ∈ L, b rc.1 rc.2 = none) →
      resultScan b p1 p2 L seen = none := by
  intro L
  induction L with
  | nil =>
    rintro seen - (rfl | ⟨rc, h, -⟩)
    · simp [resultScan]
    · exact absurd h (List.not_mem_nil rc)
  | cons rc0 rest ih =>
    rintro seen hno hsrc
    simp only [resultScan]
    by_cases h0 : b rc0.1 rc0.2 = none
    · rw [if_pos h0]
      exact ih true (fun y hy => hno y (by simp [hy])) (Or.inl rfl)
    · rw [if_neg h0, if_neg (by rw [(hno rc0 (by simp)).1]; simp),
        if_neg (by rw [(hno rc0 (by simp)).2]; simp)]
      apply ih seen (fun y hy => hno y (by simp [hy]))
      rcases hsrc with h | ⟨rc, hmem, hempty⟩
      · exact Or.inl h
      · refine Or.inr ⟨rc, ?_, hempty⟩
        rcases List.mem_cons.mp hmem with rfl | h
        · exact absurd hempty h0
        · exact h

lemma resultScan_nowin_draw (b : Board) (p1 p2 : Piece) :
    ∀ L : List (Nat × Nat),
      (∀ rc ∈ L, hasPlayerWonAtCell b p1 rc.1 rc.2 = false
        ∧ hasPlayerWonAtCell b p2 rc.1 rc.2 = false) →
      (∀ rc ∈ L, b rc.1 rc.2 ≠ none) →
      resultScan b p1 p2 L false = some GameOutcome.Draw := by
  intro L
  induction L with
  | nil =>
    intro _ _
    simp [resultScan]
  | cons rc0 rest ih =>
    intro hno hocc
    simp only [resultScan]
    rw [if_neg (hocc rc0 (by simp)),
      if_neg (by rw [(hno rc0 (by simp)).1]; simp),
      if_neg (by rw [(hno rc0 (by simp)).2]; simp)]
    exact ih (fun y hy => hno y (by simp [hy])) (fun y hy => hocc y (by simp [hy]))

lemma resultScan_eq_p1win (b : Board) (p1 p2 : Piece) :
    ∀ (L : List (Nat × Nat)) (seen : Bool),
      resultScan b p1 p2 L seen = some GameOutcome.P1Wins →
      ∃ rc ∈ L, hasPlayerWonAtCell b p1 rc.1 rc.2 = true := by
  intro L
  induction L with
  | nil =>
    intro seen h
    simp only [resultScan] at h
    split at h <;> simp_all
  | cons rc0 rest ih =>
    intro seen h
    simp only [resultScan] at h
    split at h
    · obtain ⟨rc, hmem, hw⟩ := ih true h
      exact ⟨rc, by simp [hmem], hw⟩
    · split at h
      · rename_i hw
        exact ⟨rc0, by simp, hw⟩
      · split at h
        · exact absurd (Option.some.inj h) (by simp)
        · obtain ⟨rc, hmem, hw⟩ := ih seen h
          exact ⟨rc, by simp [hmem], hw⟩

lemma resultScan_eq_p2win (b : Board) (p1 p2 : Piece) :
    ∀ (L : List (Nat × Nat)) (seen : Bool),
      resultScan b p1 p2 L seen = some GameOutcome.P2Wins →
      ∃ rc ∈ L, hasPlayerWonAtCell b p2 rc.1 rc.2 = true := by
  intro L
  induction L with
  | nil =>
    intro seen h
    simp only [resultScan] at h
    split at h <;> simp_all
  | cons rc0 rest ih =>
    intro seen h
    simp only [resultScan] at h
    split at h
    · obtain ⟨rc, hmem, hw⟩ := ih true h
      exact ⟨rc, by simp [hmem], hw⟩
    · split at h
      · exact absurd (Option.some.inj h) (by simp)
      · split at h
        · rename_i hw
          exact ⟨rc0, by simp, hw⟩
        · obtain ⟨rc, hmem, hw⟩ := ih seen h
          exact ⟨rc, by simp [hmem], hw⟩

lemma resultScan_eq_none (b : Board) (p1 p2 : Piece) :
    ∀ (L : List (Nat × Nat)) (seen : Bool),
      resultScan b p1 p2 L seen = none →
      seen = true ∨ ∃ rc ∈ L, b rc.1 rc.2 = none := by
  intro L
  induction L with
  | nil =>
    intro seen h
    simp only [resultScan] at h
    split at h <;> simp_all
  | cons rc0 rest ih =>
    intro seen h
    simp only [resultScan] at h
    split at h
    · rename_i hempty
      exact Or.inr ⟨rc0, by simp, hempty⟩
    · split at h
      · exact absurd h (by simp)
      · split at h
        · exact absurd h (by simp)
        · rcases ih seen h with hs | ⟨rc, hmem, he⟩
          · exact Or.inl hs
          · exact Or.inr ⟨rc, by simp [hmem], he⟩


lemma resultScan_eq_draw (b : Board) (p1 p2 : Piece) :
    ∀ (L : List (Nat × Nat)) (seen : Bool),
      resultScan b p1 p2 L seen = some GameOutcome.Draw →
      seen = false ∧ ∀ rc ∈ L, b rc.1 rc.2 ≠ none := by
  intro L
  induction L with
  | nil =>
    intro seen h
    simp only [resultScan] at h
    split at h
    · exact absurd h (by simp)
    · rename_i hs
      refine ⟨by simpa using hs, ?_⟩
      intro rc hm
      exact absurd hm (List.not_mem_nil rc)
  | cons rc0 rest ih =>
    intro seen h
    simp only [resultScan] at h
    split at h
    · exact absurd (ih true h).1 (by simp)
    · rename_i hocc
      split at h
      · exact absurd (Option.some.inj h) (by simp)
      · split at h
        · exact absurd (Option.some.inj h) (by simp)
        · obtain ⟨hs, hrest⟩ := ih seen h
          refine ⟨hs, ?_⟩
          intro rc hm
          rcases List.mem_cons.mp hm with rfl | hmem
          · exact hocc
          · exact hrest rc hmem

/-- C2 amended: for every board, `getResult` reports a win for a piece only
if that piece really has four-in-a-row; when exactly one of the two pieces
has a four-in-a-row its win is reported; and when neither has one the
result is `Draw` exactly when no cell is empty and `InProgress` (`none`)
exactly when some cell is empty.  The per-piece if-and-only-if of the
original claim holds in all cases except the simultaneous-win boards of the
counterexample, where only the first win in scan order is reported. -/
theorem c2_result_characterization (b : Board) (p1 p2 : Piece) :
    (getResult b p1 p2 = some GameOutcome.P1Wins → fourInARow b p1) ∧
    (getResult b p1 p2 = some GameOutcome.P2Wins → fourInARow b p2) ∧
    (fourInARow b p1 → ¬ fourInARow b p2 →
      getResult b p1 p2 = some GameOutcome.P1Wins) ∧
    (fourInARow b p2 → ¬ fourInARow b p1 →
      getResult b p1 p2 = some GameOutcome.P2Wins) ∧
    (¬ fourInARow b p1 → ¬ fourInARow b p2 →
      ((getResult b p1 p2 = some GameOutcome.Draw
          ↔ ∀ r, r < 6 → ∀ c, c < 7 → b r c ≠ none) ∧
       (getResult b p1 p2 = none
          ↔ ∃ r, r < 6 ∧ ∃ c, c < 7 ∧ b r c = none))) := by
  refine ⟨?_, ?_, ?_, ?_, ?_⟩
  · intro h
    obtain ⟨rc, hmem, hw⟩ := resultScan_eq_p1win b p1 p2 scanCells false h
    rw [mem_scanCells] at hmem
    exact (fourInARow_iff_exists_start b p1).mpr
      ⟨rc.1, hmem.1, rc.2, hmem.2, (hasWon_iff_startsFour b p1 rc.1 rc.2).mp hw⟩
  · intro h
    obtain ⟨rc, hmem, hw⟩ := resultScan_eq_p2win b p1 p2 scanCells false h
    rw [mem_scanCells] at hmem
    exact (fourInARow_iff_exists_start b p2).mpr
      ⟨rc.1, hmem.1, rc.2, hmem.2, (hasWon_iff_startsFour b p2 rc.1 rc.2).mp hw⟩
  · intro h1 h2
    exact resultScan_p1win b p1 p2 scanCells false
      (win_cell_exists b p1 h1) (no_win_cells b p2 h2)
  · intro h2 h1
    exact resultScan_p2win b p1 p2 scanCells false
      (win_cell_exists b p2 h2) (no_win_cells b p1 h1)
  · intro h1 h2
    have hno : ∀ rc ∈ scanCells, hasPlayerWonAtCell b p1 rc.1 rc.2 = false
        ∧ hasPlayerWonAtCell b p2 rc.1 rc.2 = false :=
      fun rc hm => ⟨no_win_cells b p1 h1 rc hm, no_win_cells b p2 h2 rc hm⟩
    constructor
    · constructor
      · intro hdraw r hr c hc
        exact (resultScan_eq_draw b p1 p2 scanCells false hdraw).2 (r, c)
          ((mem_scanCells (r, c)).mpr ⟨hr, hc⟩)
      · intro hocc
        exact resultScan_nowin_draw b p1 p2 scanCells hno
          (fun rc hm => hocc rc.1 (mem_scanCells rc |>.mp hm).1 rc.2
            (mem_scanCells rc |>.mp hm).2)
    · constructor
      · intro hnone
        rcases resultScan_eq_none b p1 p2 scanCells false hnone with hs | ⟨rc, hm, he⟩
        · exact absurd hs (by simp)
        · rw [mem_scanCells] at hm
          exact ⟨rc.1, hm.1, rc.2, hm.2, he⟩
      · rintro ⟨r, hr, c, hc, he⟩
        exact resultScan_nowin_none b p1 p2 scanCells false hno
          (Or.inr ⟨(r, c), (mem_scanCells (r, c)).mpr ⟨hr, hc⟩, he⟩)

/-- Writing one cell of a board, the shape `placePiece` takes when the
column has a free row. -/
def writeCell (b : Board) (row colN : Nat) (p : Piece) : Board :=
  fun r c => if r = row ∧ c = colN then some p else b r c

lemma placePiece_writeCell (b : Board) (cn : Nat) (p : Piece) (row : Nat)
    (h : getLowestEmptyRowForColumn b (cn : Int) = some row) :
    placePiece b (cn : Int) p = writeCell b row cn p := by
  rw [placePiece_eq_update b (cn : Int) p row h]
  unfold writeCell
  funext r c
  rw [Int.toNat_natCast]

/-- The eight-move sequence that gives both players a four-in-a-row. -/
def simultaneousWinMoves : List (Nat × Piece) :=
  [(0, Piece.Red), (1, Piece.Red), (2, Piece.Red), (3, Piece.Red),
   (0, Piece.Yellow), (1, Piece.Yellow), (2, Piece.Yellow), (3, Piece.Yellow)]

/-- The board reached by `simultaneousWinMoves`: red four-in-a-row on the
bottom row (columns 0..3) and yellow four-in-a-row on the row above it. -/
def simultaneousWinBoard : Board :=
  writeCell (writeCell (writeCell (writeCell (writeCell (writeCell (writeCell (writeCell
    emptyBoard 5 0 Piece.Red) 5 1 Piece.Red) 5 2 Piece.Red) 5 3 Piece.Red)
    4 0 Piece.Yellow) 4 1 Piece.Yellow) 4 2 Piece.Yellow) 4 3 Piece.Yellow

lemma simultaneousWinBoard_reachable :
    applyMoves emptyBoard simultaneousWinMoves = simultaneousWinBoard := by
  unfold applyMoves simultaneousWinMoves simultaneousWinBoard
  simp only [List.foldl]
  rw [placePiece_writeCell emptyBoard 0 Piece.Red 5 (by decide)]
  rw [placePiece_writeCell _ 1 Piece.Red 5 (by decide)]
  rw [placePiece_writeCell _ 2 Piece.Red 5 (by decide)]
  rw [placePiece_writeCell _ 3 Piece.Red 5 (by decide)]
  rw [placePiece_writeCell _ 0 Piece.Yellow 4 (by decide)]
  rw [placePiece_writeCell _ 1 Piece.Yellow 4 (by decide)]
  rw [placePiece_writeCell _ 2 Piece.Yellow 4 (by decide)]
  rw [placePiece_writeCell _ 3 Piece.Yellow 4 (by decide)]

/-- C2 counterexample: a board reachable by a sequence of `placePiece`
calls on which red has a four-in-a-row while `getResult` reports the win of
the other piece, because the yellow row above it is reached first by the
row-major scan; so "reports a win for that piece iff the board contains
four consecutive cells of that piece" fails in the win direction. -/
theorem c2_counterexample :
    applyMoves emptyBoard simultaneousWinMoves = simultaneousWinBoard ∧
    fourInARow simultaneousWinBoard Piece.Red ∧
    getResult simultaneousWinBoard Piece.Red Piece.Yellow
      = some GameOutcome.P2Wins :=
  ⟨simultaneousWinBoard_reachable, by decide, by decide⟩

/-- The board with a single red four-in-a-row on the bottom row. -/
def bottomRedRowBoard : Board :=
  writeCell (writeCell (writeCell (writeCell
    emptyBoard 5 0 Piece.Red) 5 1 Piece.Red) 5 2 Piece.Red) 5 3 Piece.Red

/-- C2 witness: the amended characterization applied to a board where only
red has a line (its win is reported) and to the empty board (in progress). -/
theorem c2_witness :
    getResult bottomRedRowBoard Piece.Red Piece.Yellow = some GameOutcome.P1Wins ∧
    getResult emptyBoard Piece.Red Piece.Yellow = none := by
  constructor
  · exact (c2_result_characterization bottomRedRowBoard Piece.Red Piece.Yellow).2.2.1
      (by decide) (by decide)
  · exact ((c2_result_characterization emptyBoard Piece.Red Piece.Yellow).2.2.2.2
      (by decide) (by decide)).2.mpr ⟨0, by omega, 0, by omega, rfl⟩

/-! ## Machinery for the alpha-beta equivalence -/

/-- Bound on the absolute value of every board evaluation: 42 cells times
4 windows of at most a million each, plus the centre bonus of at most 18. -/
def evalBoundConst : Int := 168000018

lemma minSafe_lt_neg_bound : minSafeInteger < -evalBoundConst := by decide

lemma maxSafe_gt_bound : evalBoundConst < maxSafeInteger := by decide

/-- The fail-soft alpha-beta relation of Knuth and Moore between the value
`v` returned by the pruned search in the window (alpha, beta) and the exact
minimax value `t`: exact inside the window, a matching-side bound outside. -/
def KMrel (v t alpha beta : Int) : Prop :=
  (t ≤ alpha → t ≤ v ∧ v ≤ alpha) ∧
  (alpha < t → t < beta → v = t) ∧
  (beta ≤ t → beta ≤ v ∧ v ≤ t)

lemma KMrel_refl (v alpha beta : Int) : KMrel v v alpha beta := by
  unfold KMrel
  omega

lemma minimax_succ_eq (p1 p2 : Piece) (b : Board) (isMax : Bool)
    (pm : PlayerPieceMap) (col : Int) (d : Nat) :
    minimax p1 p2 (d + 1) b isMax pm col =
      if getResult b p1 p2 ≠ none then
        (col, evaluateBoard b pm.maximizingPlayer pm.minimizingPlayer)
      else if isMax then
        mmLoopMax (fun b2 c2 => minimax p1 p2 d b2 false pm c2)
          (getChildBoardsForBoard b pm.maximizingPlayer) (-1) minSafeInteger
      else
        mmLoopMin (fun b2 c2 => minimax p1 p2 d b2 true pm c2)
          (getChildBoardsForBoard b pm.minimizingPlayer) (-1) maxSafeInteger := by
  by_cases hres : getResult b p1 p2 ≠ none
  · rw [if_pos hres]
    show (if getResult b p1 p2 ≠ none then _ else _) = _
    rw [if_pos hres]
  · rw [if_neg hres]
    show (if getResult b p1 p2 ≠ none then _ else _) = _
    rw [if_neg hres]
    cases isMax <;> simp

lemma abp_succ_eq (p1 p2 : Piece) (b : Board) (alpha beta : Int)
    (isMax : Bool) (pm : PlayerPieceMap) (col : Int) (d : Nat) :
    minimaxWithAlphaBetaPruning p1 p2 (d + 1) b alpha beta isMax pm col =
      if getResult b p1 p2 ≠ none then
        (col, evaluateBoard b pm.maximizingPlayer pm.minimizingPlayer)
      else if isMax then
        abLoopMax
          (fun b2 a2 bt2 c2 =>
            minimaxWithAlphaBetaPruning p1 p2 d b2 a2 bt2 false pm c2)
          alpha beta (getChildBoardsForBoard b pm.maximizingPlayer)
          (-1) minSafeInteger alpha
      else
        abLoopMin
          (fun b2 a2 bt2 c2 =>
            minimaxWithAlphaBetaPruning p1 p2 d b2 a2 bt2 true pm c2)
          alpha beta (getChildBoardsForBoard b pm.minimizingPlayer)
          (-1) maxSafeInteger beta := by
  by_cases hres : getResult b p1 p2 ≠ none
  · rw [if_pos hres]
    show (if getResult b p1 p2 ≠ none then _ else _) = _
    rw [if_pos hres]
  · rw [if_neg hres]
    show (if getResult b p1 p2 ≠ none then _ else _) = _
    rw [if_neg hres]
    cases isMax <;> simp

lemma evaluateMetrics_bound (a m e : Nat) :
    -1000000 ≤ evaluateMetrics a m e ∧ evaluateMetrics a m e ≤ 1000000 := by
  unfold evaluateMetrics
  split_ifs <;> omega

lemma sum_bound_of_forall {α : Type} (l : List α) (f : α → Int) (cb : Int)
    (h : ∀ x ∈ l, -cb ≤ f x ∧ f x ≤ cb) :
    -((l.length : Int) * cb) ≤ (l.map f).sum ∧ (l.map f).sum ≤ (l.length : Int) * cb := by
  induction l with
  | nil => simp
  | cons x xs ih =>
    have h1 := h x (by simp)
    have h2 := ih (fun y hy => h y (by simp [hy]))
    simp only [List.map_cons, List.sum_cons, List.length_cons]
    push_cast
    constructor <;> nlinarith [h1.1, h1.2, h2.1, h2.2]

lemma centerCount_le_six (b : Board) (t : Cell) :
    countCellsInArray (centerColumn b) t ≤ 6 := by
  have h := countCells_le_length (centerColumn b) t
  simpa [centerColumn] using h

lemma evaluateBoard_bound (b : Board) (pA pB : Piece) :
    -evalBoundConst ≤ evaluateBoard b pA pB ∧ evaluateBoard b pA pB ≤ evalBoundConst := by
  have hterm : ∀ r : Nat, ∀ c ∈ List.range 7,
      -(4000000 : Int) ≤ (evaluateHorizontally b pA pB r c
        + evaluateDiagonallyUp b pA pB r c + evaluateDiagonallyDown b pA pB r c
        + evaluateVertically b pA pB r c)
      ∧ (evaluateHorizontally b pA pB r c + evaluateDiagonallyUp b pA pB r c
        + evaluateDiagonallyDown b pA pB r c + evaluateVertically b pA pB r c)
          ≤ 4000000 := by
    intro r c _
    have h1 := evaluateMetrics_bound (numMatchingCellsHorizontally b (some pA) r c)
      (numMatchingCellsHorizontally b (some pB) r c) (numMatchingCellsHorizontally b none r c)
    have h2 := evaluateMetrics_bound (numMatchingCellsDiagonallyUp b (some pA) r c)
      (numMatchingCellsDiagonallyUp b (some pB) r c) (numMatchingCellsDiagonallyUp b none r c)
    have h3 := evaluateMetrics_bound (numMatchingCellsDiagonallyDown b (some pA) r c)
      (numMatchingCellsDiagonallyDown b (some pB) r c) (numMatchingCellsDiagonallyDown b none r c)
    have h4 := evaluateMetrics_bound (numMatchingCellsVertically b (some pA) r c)
      (numMatchingCellsVertically b (some pB) r c) (numMatchingCellsVertically b none r c)
    unfold evaluateHorizontally evaluateDiagonallyUp evaluateDiagonallyDown evaluateVertically
    omega
  have hrow : ∀ r ∈ List.range 6,
      -(28000000 : Int) ≤ ((List.range 7).map (fun c =>
        evaluateHorizontally b pA pB r c + evaluateDiagonallyUp b pA pB r c
        + evaluateDiagonallyDown b pA pB r c + evaluateVertically b pA pB r c)).sum
      ∧ ((List.range 7).map (fun c =>
        evaluateHorizontally b pA pB r c + evaluateDiagonallyUp b pA pB r c
        + evaluateDiagonallyDown b pA pB r c + evaluateVertically b pA pB r c)).sum
          ≤ 28000000 := by
    intro r _
    have h := sum_bound_of_forall (List.range 7) _ 4000000 (hterm r)
    simpa using h
  have htotal := sum_bound_of_forall (List.range 6) _ 28000000 hrow
  simp only [List.length_range] at htotal
  have hcast : ((6 : Nat) : Int) * 28000000 = 168000000 := by norm_num
  rw [hcast] at htotal
  have hcenter := centerCount_le_six b (some pA)
  unfold evaluateBoard evalBoundConst
  have hcnn : (0 : Int) ≤ (countCellsInArray (centerColumn b) (some pA) : Int) :=
    Int.natCast_nonneg _
  have hc6 : (countCellsInArray (centerColumn b) (some pA) : Int) ≤ 6 := by
    exact_mod_cast hcenter
  constructor <;> linarith [htotal.1, htotal.2]

lemma mmLoopMax_val_mono (g : Board → Int → Int × Int) :
    ∀ (L : List ChildBoard) (bc v : Int), v ≤ (mmLoopMax g L bc v).2 := by
  intro L
  induction L with
  | nil => intro bc v; simp [mmLoopMax]
  | cons cb rest ih =>
    intro bc v
    simp only [mmLoopMax]
    split
    · rename_i hlt
      exact le_trans (le_of_lt hlt) (ih cb.col _)
    · exact ih bc v

lemma mmLoopMin_val_anti (g : Board → Int → Int × Int) :
    ∀ (L : List ChildBoard) (bc v : Int), (mmLoopMin g L bc v).2 ≤ v := by
  intro L
  induction L with
  | nil => intro bc v; simp [mmLoopMin]
  | cons cb rest ih =>
    intro bc v
    simp only [mmLoopMin]
    split
    · rename_i hlt
      exact le_trans (ih cb.col _) (le_of_lt hlt)
    · exact ih bc v

lemma mmLoopMax_val_bound (g : Board → Int → Int × Int) (B : Int) :
    ∀ (L : List ChildBoard) (bc v : Int),
      (∀ cb ∈ L, -B ≤ (g cb.board cb.col).2 ∧ (g cb.board cb.col).2 ≤ B) →
      L ≠ [] →
      -B ≤ (mmLoopMax g L bc v).2 ∧ (mmLoopMax g L bc v).2 ≤ max v B := by
  intro L
  induction L with
  | nil => intro bc v _ hne; exact absurd rfl hne
  | cons cb rest ih =>
    intro bc v hb _
    have hcb := hb cb (by simp)
    simp only [mmLoopMax]
    by_cases hlt : v < (g cb.board cb.col).2
    · rw [if_pos hlt]
      by_cases hrest : rest = []
      · subst hrest
        simp only [mmLoopMax]
        constructor <;> omega
      · have hres := ih cb.col (g cb.board cb.col).2
          (fun y hy => hb y (by simp [hy])) hrest
        constructor
        · exact hres.1
        · omega
    · rw [if_neg hlt]
      by_cases hrest : rest = []
      · subst hrest
        simp only [mmLoopMax]
        constructor <;> omega
      · have hres := ih bc v (fun y hy => hb y (by simp [hy])) hrest
        constructor
        · exact hres.1
        · exact hres.2

lemma mmLoopMin_val_bound (g : Board → Int → Int × Int) (B : Int) :
    ∀ (L : List ChildBoard) (bc v : Int),
      (∀ cb ∈ L, -B ≤ (g cb.board cb.col).2 ∧ (g cb.board cb.col).2 ≤ B) →
      L ≠ [] →
      min v (-B) ≤ (mmLoopMin g L bc v).2 ∧ (mmLoopMin g L bc v).2 ≤ B := by
  intro L
  induction L with
  | nil => intro bc v _ hne; exact absurd rfl hne
  | cons cb rest ih =>
    intro bc v hb _
    have hcb := hb cb (by simp)
    simp only [mmLoopMin]
    by_cases hlt : (g cb.board cb.col).2 < v
    · rw [if_pos hlt]
      by_cases hrest : rest = []
      · subst hrest
        simp only [mmLoopMin]
        constructor <;> omega
      · have hres := ih cb.col (g cb.board cb.col).2
          (fun y hy => hb y (by simp [hy])) hrest
        constructor
        · omega
        · exact hres.2
    · rw [if_neg hlt]
      by_cases hrest : rest = []
      · subst hrest
        simp only [mmLoopMin]
        constructor <;> omega
      · have hres := ih bc v (fun y hy => hb y (by simp [hy])) hrest
        constructor
        · omega
        · exact hres.2

lemma children_ne_nil_of_inprogress (b : Board) (p p1 p2 : Piece)
    (h : getResult b p1 p2 = none) : getChildBoardsForBoard b p ≠ [] := by
  intro hnil
  exact getResult_ne_none_of_no_children b p p1 p2 hnil h

lemma minimax_val_bound (p1 p2 : Piece) :
    ∀ (d : Nat) (b : Board) (isMax : Bool) (pm : PlayerPieceMap) (col : Int),
      -evalBoundConst ≤ (minimax p1 p2 d b isMax pm col).2 ∧
      (minimax p1 p2 d b isMax pm col).2 ≤ evalBoundConst := by
  intro d
  induction d with
  | zero =>
    intro b isMax pm col
    exact evaluateBoard_bound b pm.maximizingPlayer pm.minimizingPlayer
  | succ d1 ih =>
    intro b isMax pm col
    rw [minimax_succ_eq]
    by_cases hres : getResult b p1 p2 ≠ none
    · rw [if_pos hres]
      exact evaluateBoard_bound b pm.maximizingPlayer pm.minimizingPlayer
    · rw [if_neg hres]
      have hresn : getResult b p1 p2 = none := not_not.mp hres
      cases isMax with
      | true =>
        rw [if_pos rfl]
        have hne := children_ne_nil_of_inprogress b pm.maximizingPlayer p1 p2 hresn
        have hb := mmLoopMax_val_bound
          (fun b2 c2 => minimax p1 p2 d1 b2 false pm c2) evalBoundConst
          (getChildBoardsForBoard b pm.maximizingPlayer) (-1) minSafeInteger
          (fun cb _ => ih cb.board false pm cb.col) hne
        have hms := minSafe_lt_neg_bound
        omega
      | false =>
        rw [if_neg (by simp)]
        have hne := children_ne_nil_of_inprogress b pm.minimizingPlayer p1 p2 hresn
        have hb := mmLoopMin_val_bound
          (fun b2 c2 => minimax p1 p2 d1 b2 true pm c2) evalBoundConst
          (getChildBoardsForBoard b pm.minimizingPlayer) (-1) maxSafeInteger
          (fun cb _ => ih cb.board true pm cb.col) hne
        have hms := maxSafe_gt_bound
        omega

lemma abLoopMax_km (f : Board → Int → Int → Int → Int × Int)
    (g : Board → Int → Int × Int) (alpha beta : Int)
    (hab : alpha < beta) (hmax : beta ≤ maxSafeInteger) :
    ∀ L : List ChildBoard,
      (∀ cb ∈ L, ∀ a2 b2 : Int, minSafeInteger ≤ a2 → a2 < b2 → b2 ≤ maxSafeInteger →
        KMrel (f cb.board a2 b2 cb.col).2 (g cb.board cb.col).2 a2 b2) →
      ∀ bcA vA na bcM vM : Int,
        minSafeInteger ≤ na → na = max alpha vA → na < beta → KMrel vA vM alpha beta →
        KMrel (abLoopMax f alpha beta L bcA vA na).2 (mmLoopMax g L bcM vM).2 alpha beta := by
  intro L
  induction L with
  | nil =>
    intro _ bcA vA na bcM vM _ hna hnb hrel
    simpa only [abLoopMax, mmLoopMax] using hrel
  | cons cb rest ih =>
    intro hch bcA vA na bcM vM hnm hna hnb hrel
    simp only [abLoopMax, mmLoopMax]
    set r := (f cb.board na beta cb.col).2 with hrdef
    set s := (g cb.board cb.col).2 with hsdef
    have hkm := hch cb (by simp) na beta hnm hnb hmax
    rw [← hrdef, ← hsdef] at hkm
    have hstep : KMrel (max vA r) (max vM s) alpha beta := by
      unfold KMrel at hkm hrel ⊢
      omega
    have hv2 : (if vA < r then r else vA) = max vA r := by
      split <;> omega
    rw [hv2]
    by_cases hbreak : beta ≤ max alpha (max vA r)
    · rw [if_pos hbreak]
      have hge : beta ≤ max vA r := by omega
      by_cases hm : vM < s
      · rw [if_pos hm]
        have hmono := mmLoopMax_val_mono g rest cb.col s
        have hms : max vM s = s := by omega
        rw [hms] at hstep
        unfold KMrel at hstep ⊢
        omega
      · rw [if_neg hm]
        have hmono := mmLoopMax_val_mono g rest bcM vM
        have hms : max vM s = vM := by omega
        rw [hms] at hstep
        unfold KMrel at hstep ⊢
        omega
    · rw [if_neg hbreak]
      by_cases hm : vM < s
      · rw [if_pos hm]
        have hms : max vM s = s := by omega
        rw [hms] at hstep
        exact ih (fun y hy a2 b2 ha hb hc => hch y (by simp [hy]) a2 b2 ha hb hc)
          (if vA < r then cb.col else bcA) (max vA r) (max alpha (max vA r))
          cb.col s (by omega) rfl (by omega) hstep
      · rw [if_neg hm]
        have hms : max vM s = vM := by omega
        rw [hms] at hstep
        exact ih (fun y hy a2 b2 ha hb hc => hch y (by simp [hy]) a2 b2 ha hb hc)
          (if vA < r then cb.col else bcA) (max vA r) (max alpha (max vA r))
          bcM vM (by omega) rfl (by omega) hstep

lemma abLoopMin_km (f : Board → Int → Int → Int → Int × Int)
    (g : Board → Int → Int × Int) (alpha beta : Int)
    (hab : alpha < beta) (hmin : minSafeInteger ≤ alpha) :
    ∀ L : List ChildBoard,
      (∀ cb ∈ L, ∀ a2 b2 : Int, minSafeInteger ≤ a2 → a2 < b2 → b2 ≤ maxSafeInteger →
        KMrel (f cb.board a2 b2 cb.col).2 (g cb.board cb.col).2 a2 b2) →
      ∀ bcA vA nb bcM vM : Int,
        nb ≤ maxSafeInteger → nb = min beta vA → alpha < nb → KMrel vA vM alpha beta →
        KMrel (abLoopMin f alpha beta L bcA vA nb).2 (mmLoopMin g L bcM vM).2 alpha beta := by
  intro L
  induction L with
  | nil =>
    intro _ bcA vA nb bcM vM _ hnb hna hrel
    simpa only [abLoopMin, mmLoopMin] using hrel
  | cons cb rest ih =>
    intro hch bcA vA nb bcM vM hnm hnb hna hrel
    simp only [abLoopMin, mmLoopMin]
    set r := (f cb.board alpha nb cb.col).2 with hrdef
    set s := (g cb.board cb.col).2 with hsdef
    have hkm := hch cb (by simp) alpha nb hmin hna hnm
    rw [← hrdef, ← hsdef] at hkm
    have hstep : KMrel (min vA r) (min vM s) alpha beta := by
      unfold KMrel at hkm hrel ⊢
      omega
    have hv2 : (if r < vA then r else vA) = min vA r := by
      split <;> omega
    rw [hv2]
    by_cases hbreak : min beta (min vA r) ≤ alpha
    · rw [if_pos hbreak]
      have hge : min vA r ≤ alpha := by omega
      by_cases hm : s < vM
      · rw [if_pos hm]
        have hmono := mmLoopMin_val_anti g rest cb.col s
        have hms : min vM s = s := by omega
        rw [hms] at hstep
        unfold KMrel at hstep ⊢
        omega
      · rw [if_neg hm]
        have hmono := mmLoopMin_val_anti g rest bcM vM
        have hms : min vM s = vM := by omega
        rw [hms] at hstep
        unfold KMrel at hstep ⊢
        omega
    · rw [if_neg hbreak]
      by_cases hm : s < vM
      · rw [if_pos hm]
        have hms : min vM s = s := by omega
        rw [hms] at hstep
        exact ih (fun y hy a2 b2 ha hb hc => hch y (by simp [hy]) a2 b2 ha hb hc)
          (if r < vA then cb.col else bcA) (min vA r) (min beta (min vA r))
          cb.col s (by omega) rfl (by omega) hstep
      · rw [if_neg hm]
        have hms : min vM s = vM := by omega
        rw [hms] at hstep
        exact ih (fun y hy a2 b2 ha hb hc => hch y (by simp [hy]) a2 b2 ha hb hc)
          (if r < vA then cb.col else bcA) (min vA r) (min beta (min vA r))
          bcM vM (by omega) rfl (by omega) hstep

lemma km_minimax (p1 p2 : Piece) :
    ∀ (d : Nat) (b : Board) (isMax : Bool) (pm : PlayerPieceMap) (col : Int)
      (alpha beta : Int),
      minSafeInteger ≤ alpha → alpha < beta → beta ≤ maxSafeInteger →
      KMrel (minimaxWithAlphaBetaPruning p1 p2 d b alpha beta isMax pm col).2
        (minimax p1 p2 d b isMax pm col).2 alpha beta := by
  intro d
  induction d with
  | zero =>
    intro b isMax pm col alpha beta _ _ _
    exact KMrel_refl _ alpha beta
  | succ d1 ih =>
    intro b isMax pm col alpha beta h1 h2 h3
    rw [minimax_succ_eq, abp_succ_eq]
    by_cases hres : getResult b p1 p2 ≠ none
    · rw [if_pos hres, if_pos hres]
      exact KMrel_refl _ alpha beta
    · rw [if_neg hres, if_neg hres]
      cases isMax with
      | true =>
        rw [if_pos rfl, if_pos rfl]
        exact abLoopMax_km _ _ alpha beta h2 h3 _
          (fun cb _ a2 b2 ha hb hc => ih cb.board false pm cb.col a2 b2 ha hb hc)
          (-1) minSafeInteger alpha (-1) minSafeInteger h1 (by omega) h2
          (KMrel_refl minSafeInteger alpha beta)
      | false =>
        rw [if_neg (by simp), if_neg (by simp)]
        exact abLoopMin_km _ _ alpha beta h2 h1 _
          (fun cb _ a2 b2 ha hb hc => ih cb.board true pm cb.col a2 b2 ha hb hc)
          (-1) maxSafeInteger beta (-1) maxSafeInteger h3 (by omega) h2
          (KMrel_refl maxSafeInteger alpha beta)

lemma abLoopMax_eq_mm (f : Board → Int → Int → Int → Int × Int)
    (g : Board → Int → Int × Int) :
    ∀ L : List ChildBoard,
      (∀ cb ∈ L,
        (∀ a2 b2 : Int, minSafeInteger ≤ a2 → a2 < b2 → b2 ≤ maxSafeInteger →
          KMrel (f cb.board a2 b2 cb.col).2 (g cb.board cb.col).2 a2 b2) ∧
        -evalBoundConst ≤ (g cb.board cb.col).2 ∧
        (g cb.board cb.col).2 ≤ evalBoundConst) →
      ∀ bc v na : Int,
        na = max minSafeInteger v →
        (v = minSafeInteger ∨ (-evalBoundConst ≤ v ∧ v ≤ evalBoundConst)) →
        abLoopMax f minSafeInteger maxSafeInteger L bc v na = mmLoopMax g L bc v := by
  intro L
  induction L with
  | nil =>
    intro _ bc v na _ _
    simp only [abLoopMax, mmLoopMax]
  | cons cb rest ih =>
    intro hch bc v na hna hv
    obtain ⟨hkm, hbl, hbu⟩ := hch cb (by simp)
    have hms := minSafe_lt_neg_bound
    have hmx := maxSafe_gt_bound
    simp only [abLoopMax, mmLoopMax]
    set s := (g cb.board cb.col).2 with hsdef
    set r := (f cb.board na maxSafeInteger cb.col).2 with hrdef
    have hwin := hkm na maxSafeInteger (by omega) (by omega) le_rfl
    rw [← hrdef] at hwin
    by_cases hupd : v < s
    · have hr : r = s := by
        unfold KMrel at hwin
        omega
      rw [hr]
      simp only [if_pos hupd]
      rw [if_neg (show ¬ maxSafeInteger ≤ max minSafeInteger s by omega)]
      exact ih (fun y hy => hch y (by simp [hy])) cb.col s (max minSafeInteger s)
        rfl (Or.inr ⟨hbl, hbu⟩)
    · have hrv : ¬ v < r := by
        unfold KMrel at hwin
        omega
      simp only [if_neg hrv, if_neg hupd]
      rw [if_neg (show ¬ maxSafeInteger ≤ max minSafeInteger v by omega)]
      exact ih (fun y hy => hch y (by simp [hy])) bc v (max minSafeInteger v) rfl hv

lemma abLoopMin_eq_mm (f : Board → Int → Int → Int → Int × Int)
    (g : Board → Int → Int × Int) :
    ∀ L : List ChildBoard,
      (∀ cb ∈ L,
        (∀ a2 b2 : Int, minSafeInteger ≤ a2 → a2 < b2 → b2 ≤ maxSafeInteger →
          KMrel (f cb.board a2 b2 cb.col).2 (g cb.board cb.col).2 a2 b2) ∧
        -evalBoundConst ≤ (g cb.board cb.col).2 ∧
        (g cb.board cb.col).2 ≤ evalBoundConst) →
      ∀ bc v nb : Int,
        nb = min maxSafeInteger v →
        (v = maxSafeInteger ∨ (-evalBoundConst ≤ v ∧ v ≤ evalBoundConst)) →
        abLoopMin f minSafeInteger maxSafeInteger L bc v nb = mmLoopMin g L bc v := by
  intro L
  induction L with
  | nil =>
    intro _ bc v nb _ _
    simp only [abLoopMin, mmLoopMin]
  | cons cb rest ih =>
    intro hch bc v nb hnb hv
    obtain ⟨hkm, hbl, hbu⟩ := hch cb (by simp)
    have hms := minSafe_lt_neg_bound
    have hmx := maxSafe_gt_bound
    simp only [abLoopMin, mmLoopMin]
    set s := (g cb.board cb.col).2 with hsdef
    set r := (f cb.board minSafeInteger nb cb.col).2 with hrdef
    have hwin := hkm minSafeInteger nb le_rfl (by omega) (by omega)
    rw [← hrdef] at hwin
    by_cases hupd : s < v
    · have hr : r = s := by
        unfold KMrel at hwin
        omega
      rw [hr]
      simp only [if_pos hupd]
      rw [if_neg (show ¬ min maxSafeInteger s ≤ minSafeInteger by omega)]
      exact ih (fun y hy => hch y (by simp [hy])) cb.col s (min maxSafeInteger s)
        rfl (Or.inr ⟨hbl, hbu⟩)
    · have hrv : ¬ r < v := by
        unfold KMrel at hwin
        omega
      simp only [if_neg hrv, if_neg hupd]
      rw [if_neg (show ¬ min maxSafeInteger v ≤ minSafeInteger by omega)]
      exact ih (fun y hy => hch y (by simp [hy])) bc v (min maxSafeInteger v) rfl hv

/-- C1: called with the full window `alpha = Number.MIN_SAFE_INTEGER`,
`beta = Number.MAX_SAFE_INTEGER`, `minimaxWithAlphaBetaPruning` returns
exactly the pair (chosen column, value) of plain `minimax` on the same
board, depth, maximizing flag, piece map and incoming column: at the
outermost level pruning never cuts a child and ties are resolved by the
same first-strict-improvement rule over column order 0..6, while the
Knuth-Moore window argument keeps every pruned inner value on the correct
side of its window. -/
theorem c1_alphabeta_equals_minimax (p1 p2 : Piece) (d : Nat) (b : Board)
    (isMax : Bool) (pm : PlayerPieceMap) (col : Int) :
    minimaxWithAlphaBetaPruning p1 p2 d b minSafeInteger maxSafeInteger isMax pm col
      = minimax p1 p2 d b isMax pm col := by
  cases d with
  | zero => rfl
  | succ d1 =>
    rw [minimax_succ_eq, abp_succ_eq]
    by_cases hres : getResult b p1 p2 ≠ none
    · rw [if_pos hres, if_pos hres]
    · rw [if_neg hres, if_neg hres]
      have hms := minSafe_lt_neg_bound
      have hmx := maxSafe_gt_bound
      cases isMax with
      | true =>
        rw [if_pos rfl, if_pos rfl]
        apply abLoopMax_eq_mm
        · intro cb _
          exact ⟨fun a2 b2 ha hb hc =>
              km_minimax p1 p2 d1 cb.board false pm cb.col a2 b2 ha hb hc,
            (minimax_val_bound p1 p2 d1 cb.board false pm cb.col).1,
            (minimax_val_bound p1 p2 d1 cb.board false pm cb.col).2⟩
        · omega
        · exact Or.inl rfl
      | false =>
        rw [if_neg (by simp), if_neg (by simp)]
        apply abLoopMin_eq_mm
        · intro cb _
          exact ⟨fun a2 b2 ha hb hc =>
              km_minimax p1 p2 d1 cb.board true pm cb.col a2 b2 ha hb hc,
            (minimax_val_bound p1 p2 d1 cb.board true pm cb.col).1,
            (minimax_val_bound p1 p2 d1 cb.board true pm cb.col).2⟩
        · omega
        · exact Or.inl rfl
